import Mathlib

/-!
Verification development for the code of pyxtal/interface/gulp.py: a calculator
class GULP (writer, runner, reader of the external GULP program) together with
the orchestration functions single_optimize and optimize.

The Python code is shallowly embedded: lines of a text file are Lean strings,
Python floats are modelled by the type PVal (a rational number, NaN, or a
signed infinity), exceptions are modelled by Option/Except, the filesystem is
a finite set of file names, and the external process is an oracle supplying
the captured output lines.
-/

namespace PyXtalGulp

/-! Basic string primitives modelling the Python str operations used by the
source: whitespace splitting, substring search, and numeric conversion. -/

/-- Whitespace characters recognised by Python str.split and str.strip. -/
def isWS (c : Char) : Bool :=
  c = ' ' || c = '\t' || c = '\n' || c = '\r' || c = '\x0b' || c = '\x0c'

/-- Decimal digit test, as used by float and int parsing. -/
def isDigit (c : Char) : Bool := '0' ≤ c && c ≤ '9'

/-- Whether pat occurs as a contiguous sublist of the character list; this
models the test line.find(pat) being different from -1. -/
def listContains (pat : List Char) : List Char → Bool
  | [] => pat.isEmpty
  | c :: t => pat.isPrefixOf (c :: t) || listContains pat t

/-- Models the Python test s.find(pat) being different from -1. -/
def findHit (s pat : String) : Bool := listContains pat.toList s.toList

/-- Splits a character list on runs of whitespace, dropping empty pieces;
this is the behaviour of Python str.split with no argument.  cur accumulates
the characters of the token currently being read, in reverse. -/
def splitWSGo (cur : List Char) : List Char → List (List Char)
  | [] => if cur.isEmpty then [] else [cur.reverse]
  | c :: t =>
    if isWS c then
      if cur.isEmpty then splitWSGo [] t else cur.reverse :: splitWSGo [] t
    else splitWSGo (c :: cur) t

/-- Splits a character list on runs of whitespace, dropping empty pieces. -/
def splitWSAux (cs : List Char) : List (List Char) := splitWSGo [] cs

/-- Models Python line.split with no argument. -/
def pySplit (s : String) : List String := (splitWSAux s.toList).map String.mk

/-- Value of a decimal digit character. -/
def digitVal (c : Char) : ℕ := c.toNat - 48

/-- Value of a list of decimal digit characters, most significant first. -/
def digitsToNat (cs : List Char) : ℕ := cs.foldl (fun n c => 10 * n + digitVal c) 0

/-- A Python float value: a finite rational, NaN, or a signed infinity. -/
inductive PVal where
  | num (q : ℚ)
  | nan
  | inf (neg : Bool)
deriving DecidableEq

/-- Strips leading and trailing whitespace, as Python number conversion does. -/
def pyStrip (cs : List Char) : List Char :=
  ((cs.dropWhile isWS).reverse.dropWhile isWS).reverse

/-- Reads an optional leading sign, returning whether the value is negated
and the remaining characters. -/
def signSplit : List Char → Bool × List Char
  | '+' :: t => (false, t)
  | '-' :: t => (true, t)
  | t => (false, t)

/-- Splits an optional decimal point followed by fraction digits from the
remainder of a mantissa. -/
def fracSplit : List Char → List Char × List Char
  | '.' :: t => (t.takeWhile isDigit, t.dropWhile isDigit)
  | t => ([], t)

/-- Models the Python conversion float(s): strips whitespace, reads an
optional sign, the case-insensitive words nan / inf / infinity, or a decimal
mantissa with an optional exponent.  Returns none where Python raises
ValueError. -/
def pyFloat? (s : String) : Option PVal :=
  let sgn := signSplit (pyStrip s.toList)
  let neg := sgn.1
  let cs2 := sgn.2
  let low := cs2.map Char.toLower
  if low = ['n', 'a', 'n'] then some PVal.nan
  else if low = ['i', 'n', 'f'] then some (PVal.inf neg)
  else if low = ['i', 'n', 'f', 'i', 'n', 'i', 't', 'y'] then some (PVal.inf neg)
  else
    let intD := cs2.takeWhile isDigit
    let fr := fracSplit (cs2.dropWhile isDigit)
    let fracD := fr.1
    let rest2 := fr.2
    if intD.length + fracD.length = 0 then none
    else
      let mantN : ℤ :=
        if neg then -(digitsToNat (intD ++ fracD) : ℤ) else (digitsToNat (intD ++ fracD) : ℤ)
      match rest2 with
      | [] => some (PVal.num (mkRat mantN (10 ^ fracD.length)))
      | c :: t =>
        if c = 'e' || c = 'E' then
          let esgn : Bool × List Char :=
            match t with
            | '+' :: u => (false, u)
            | '-' :: u => (true, u)
            | u => (false, u)
          let eD := esgn.2.takeWhile isDigit
          if eD.length = 0 then none
          else if esgn.2.dropWhile isDigit ≠ [] then none
          else
            let ev : ℕ := digitsToNat eD
            some (PVal.num (if esgn.1 then mkRat mantN (10 ^ fracD.length * 10 ^ ev)
              else mkRat (mantN * 10 ^ ev) (10 ^ fracD.length)))
        else none

/-- Models the Python conversion int(s): strips whitespace, optional sign,
then decimal digits only.  Returns none where Python raises ValueError. -/
def pyInt? (s : String) : Option ℤ :=
  let sgn := signSplit (pyStrip s.toList)
  if sgn.2.length = 0 || sgn.2.any (fun c => !isDigit c) then none
  else some (if sgn.1 then -(digitsToNat sgn.2 : ℤ) else (digitsToNat sgn.2 : ℤ))

/-- Drops leading whitespace. -/
def dropWSL (cs : List Char) : List Char := cs.dropWhile isWS

/-- Backtracking search for the greedy capture group of the energy pattern:
tries the longest nonempty prefix of the nonspace run first, accepting a
candidate when the remainder, after optional whitespace, starts with eV. -/
def capTry (run rest : List Char) : ℕ → Option (List Char)
  | 0 => none
  | k + 1 =>
    if ['e', 'V'].isPrefixOf (dropWSL (run.drop (k + 1) ++ rest)) then some (run.take (k + 1))
    else capTry run rest k

/-- Models re.match of the anchored pattern for the total lattice energy line
(optional whitespace, the literal words, optional whitespace, an equals sign,
optional whitespace, a greedy nonspace capture, optional whitespace, eV),
returning the captured token. -/
def matchEnergy (line : String) : Option String :=
  let cs := dropWSL line.toList
  if "Total lattice energy".toList.isPrefixOf cs then
    match dropWSL (cs.drop "Total lattice energy".toList.length) with
    | '=' :: cs2 =>
      let cs3 := dropWSL cs2
      let run := cs3.takeWhile (fun c => !isWS c)
      (capTry run (cs3.drop run.length) run.length).map String.mk
    | _ => none
  else none

/-! The data model: lattices, input structures, and the GULP calculator
state, mirroring the attributes set by the constructor of the class. -/

/-- A lattice is either carried as six cell parameters (three lengths and
three angles, as recovered by get_para with degree set) or as a 3 by 3
matrix of cell vectors (as built by from_matrix). -/
inductive Lattice where
  | ofParams (a b c alpha beta gamma : ℚ)
  | ofMatrix (m : List (List PVal))
deriving DecidableEq

/-- Models pyxtal.lattice.Lattice.from_matrix: wraps a cell matrix. -/
def Lattice.from_matrix (m : List (List PVal)) : Lattice := Lattice.ofMatrix m

/-- Modelled from the spec: the crystal-structure data structures (lattice
parameterization) are out-of-scope external collaborators, so the numeric
extraction of cell parameters from a matrix-built lattice (vector norms and
angles, performed by pyxtal.lattice outside this repository's source) is
left as a fixed placeholder; no claim below evaluates it. -/
def matrixPara (_m : List (List PVal)) : ℚ × ℚ × ℚ × ℚ × ℚ × ℚ := (0, 0, 0, 0, 0, 0)

/-- Models Lattice.get_para with degree set: the six cell parameters. -/
def Lattice.get_para : Lattice → ℚ × ℚ × ℚ × ℚ × ℚ × ℚ
  | .ofParams a b c alpha beta gamma => (a, b, c, alpha, beta, gamma)
  | .ofMatrix m => matrixPara m

/-- The structure object handed to the constructor: a pyxtal random_crystal
(carrying a lattice and, via _get_coords_and_species, fractional coordinates
and species), an ase Atoms object (carrying a cell matrix, scaled positions
and chemical symbols), or any other object. -/
inductive Struc where
  | randomCrystal (lattice : Lattice) (coords : List (List ℚ)) (species : List String)
  | aseAtoms (cell : List (List PVal)) (scaledPositions : List (List ℚ)) (symbols : List String)
  | other
deriving DecidableEq

/-- The attributes of a GULP calculator object.  The three structure-derived
attributes are Options because the constructor assigns them only for the two
recognised structure kinds.  The field struc mirrors self.structure. -/
structure GULP where
  lattice : Option Lattice
  frac_coords : Option (List (List PVal))
  sites : Option (List String)
  struc : Struc
  label : String
  ff : String
  opt : String
  exe : String
  steps : ℕ
  input : String
  output : String
  dump : String
  iter : ℤ
  energy : Option PVal
  stress : Option (List PVal)
  forces : Option Unit
  positions : Option Unit
  optimized : Bool
  cputime : PVal
  error : Bool
deriving DecidableEq

/-- Models the constructor of the class: dispatch on the structure kind,
label-prefix the input and output file names, and initialise the result
fields.  For a structure of any other kind the lattice, frac_coords and
sites attributes are never assigned (modelled as none); the constructor
still returns normally. -/
def GULP.init (struc : Struc) (label ff opt : String) (steps : ℕ)
    (exe input output dump : String) : GULP :=
  let fields : Option Lattice × Option (List (List PVal)) × Option (List String) :=
    match struc with
    | .randomCrystal L coords sp => (some L, some (coords.map (fun r => r.map PVal.num)), some sp)
    | .aseAtoms cell pos sym =>
        (some (Lattice.from_matrix cell), some (pos.map (fun r => r.map PVal.num)), some sym)
    | .other => (none, none, none)
  { lattice := fields.1
    frac_coords := fields.2.1
    sites := fields.2.2
    struc := struc
    label := label
    ff := ff
    opt := opt
    exe := exe
    steps := steps
    input := label ++ input
    output := label ++ output
    dump := dump
    iter := 0
    energy := none
    stress := none
    forces := none
    positions := none
    optimized := false
    cputime := PVal.num 0
    error := false }

/-- The constructor with its default keyword arguments. -/
def GULP.mk0 (struc : Struc) (label : String) : GULP :=
  GULP.init struc label "reax" "conp" 1000 "gulp" "gulp.in" "gulp.log" "opt.cif"

/-! The Reader.  GULP.read scans the captured output lines once; every
Python exception inside the scan is modelled by none, and the top-level
try/except of read is modelled by GULP.scan returning the state reached so
far together with a flag recording whether an exception was raised. -/

/-- One row of the stress block: the tokens at indices 1 and 3 of the line at
the given index, both converted to float.  none models IndexError on a
missing line or token and ValueError on a malformed number. -/
def stressRow (lines : List String) (idx : ℕ) : Option (PVal × PVal) :=
  match lines[idx]? with
  | none => none
  | some l =>
    match (pySplit l)[1]?, (pySplit l)[3]? with
    | some t1, some t3 =>
      match pyFloat? t1, pyFloat? t3 with
      | some v1, some v3 => some (v1, v3)
      | _, _ => none
    | _, _ => none

/-- The stress block read at marker index i: the three lines i+3, i+4, i+5
give entries j and j+3 of the six-component vector, so the result lists the
three normal components followed by the three shear components. -/
def readStress (lines : List String) (i : ℕ) : Option (List PVal) :=
  match stressRow lines (i + 3), stressRow lines (i + 4), stressRow lines (i + 5) with
  | some r0, some r1, some r2 => some [r0.1, r1.1, r2.1, r0.2, r1.2, r2.2]
  | _, _, _ => none

/-- The while loop of the fractional-coordinates block: starting just past
index s, read data lines (coordinates from tokens 3 to 5, species from token
1) until a line containing a twelve-dash separator; none models the
IndexError of running past the end of the file and the errors of malformed
lines.  The species list is returned alongside, mirroring the local variable
of the source (which the source then discards). -/
def fracGo : List String → Option (List (List PVal) × List String)
  | [] => none
  | l :: rest =>
    if findHit l "------------" then some ([], [])
    else
      let toks := pySplit l
      match ((toks.drop 3).take 3).mapM pyFloat? with
      | none => none
      | some row =>
        match toks[1]? with
        | none => none
        | some sp =>
          match fracGo rest with
          | none => none
          | some pr => some (row :: pr.1, sp :: pr.2)

/-- The loop of the coordinates block, reading the lines after index s. -/
def fracLoop (lines : List String) (s : ℕ) : Option (List (List PVal) × List String) :=
  fracGo (lines.drop (s + 1))

/-- One row of the final Cartesian lattice vectors block: three floats from
the first three tokens of the line at the given index. -/
def latRow (lines : List String) (idx : ℕ) : Option (List PVal) :=
  match lines[idx]? with
  | none => none
  | some l =>
    match (pySplit l)[0]?, (pySplit l)[1]?, (pySplit l)[2]? with
    | some t0, some t1, some t2 =>
      match pyFloat? t0, pyFloat? t1, pyFloat? t2 with
      | some v0, some v1, some v2 => some [v0, v1, v2]
      | _, _, _ => none
    | _, _, _ => none

/-- The lattice-vectors block read from the three lines starting at s. -/
def readLat (lines : List String) (s : ℕ) : Option (List (List PVal)) :=
  match latRow lines s, latRow lines (s + 1), latRow lines (s + 2) with
  | some r0, some r1, some r2 => some [r0, r1, r2]
  | _, _, _ => none

/-- One iteration of the scanning loop of GULP.read, for the line at index i.
The branches are tried in the order of the source: the anchored energy
pattern, then the literal markers Job Finished, Total CPU time, Final stress
tensor components, Cycle, Final fractional coordinates of atoms, and Final
Cartesian lattice vectors.  none models an exception raised inside the
branch; each branch updates the state atomically. -/
def GULP.step (lines : List String) (i : ℕ) (line : String) (st : GULP) : Option GULP :=
  match matchEnergy line with
  | some tok => (pyFloat? tok).map (fun v => { st with energy := some v })
  | none =>
    if findHit line "Job Finished" then some { st with optimized := true }
    else if findHit line "Total CPU time" then
      match (pySplit line).getLast? with
      | none => none
      | some tok => (pyFloat? tok).map (fun v => { st with cputime := v })
    else if findHit line "Final stress tensor components" then
      (readStress lines i).map (fun sv => { st with stress := some sv })
    else if findHit line " Cycle: " then
      match (pySplit line)[1]? with
      | none => none
      | some tok => (pyInt? tok).map (fun n => { st with iter := n })
    else if findHit line "Final fractional coordinates of atoms" then
      (fracLoop lines (i + 5)).map (fun pr => { st with frac_coords := some pr.1 })
    else if findHit line "Final Cartesian lattice vectors" then
      (readLat lines (i + 2)).map (fun m => { st with lattice := some (Lattice.from_matrix m) })
    else some st

/-- The scanning loop over the enumerated lines: returns the state reached
and whether an exception was raised (in which case the remaining lines are
not visited). -/
def GULP.scanGo (lines : List String) : ℕ → GULP → List String → GULP × Bool
  | _, st, [] => (st, false)
  | i, st, l :: rest =>
    match GULP.step lines i l st with
    | none => (st, true)
    | some st2 => GULP.scanGo lines (i + 1) st2 rest

/-- The whole scan of GULP.read, inside its try block. -/
def GULP.scan (lines : List String) (st : GULP) : GULP × Bool :=
  GULP.scanGo lines 0 st lines

/-- Number of lines the scan processes without raising. -/
def scanSteps (lines : List String) : ℕ → GULP → List String → ℕ
  | _, _, [] => 0
  | i, st, l :: rest =>
    match GULP.step lines i l st with
    | none => 0
    | some st2 => 1 + scanSteps lines (i + 1) st2 rest

/-- Models GULP.read on the given output lines: run the scan; if it raised,
or if the final energy is NaN (where the isnan test of the source raises on
a never-assigned None energy and is true on NaN), set the error flag and
force the sentinel energy 100000.  The function is total: no exception
escapes to the caller. -/
def GULP.read (lines : List String) (st0 : GULP) : GULP :=
  match GULP.scan lines st0 with
  | (st, true) => { st with error := true, energy := some (PVal.num 100000) }
  | (st, false) =>
    match st.energy with
    | some (PVal.num _) => st
    | some (PVal.inf _) => st
    | some PVal.nan => { st with error := true, energy := some (PVal.num 100000) }
    | none => { st with error := true, energy := some (PVal.num 100000) }

/-! The Writer.  GULP.write serialises the structure and run options into
the line-oriented input deck.  Python float formatting with a minimum width
of 12 and 6 decimal places is modelled over the rationals with
round-half-to-even. -/

/-- The decimal digit character for a value below ten. -/
def digitChar : ℕ → Char
  | 0 => '0'
  | 1 => '1'
  | 2 => '2'
  | 3 => '3'
  | 4 => '4'
  | 5 => '5'
  | 6 => '6'
  | 7 => '7'
  | 8 => '8'
  | _ => '9'

/-- Decimal digits of a number, least significant first; the fuel argument
bounds the recursion depth and any fuel at least n is enough. -/
def natDecRev : ℕ → ℕ → List Char
  | _, 0 => []
  | 0, _ + 1 => []
  | fuel + 1, n + 1 => digitChar ((n + 1) % 10) :: natDecRev fuel ((n + 1) / 10)

/-- Decimal rendering of a natural number, most significant digit first. -/
def natDec (n : ℕ) : List Char := if n = 0 then ['0'] else (natDecRev n n).reverse

/-- Round half to even of the fraction n over d, on natural numbers: the
rounding used when formatting a nonnegative value with a fixed number of
decimal places. -/
def rheNat (n d : ℕ) : ℕ :=
  if 2 * (n % d) < d then n / d
  else if d < 2 * (n % d) then n / d + 1
  else if (n / d) % 2 = 0 then n / d else n / d + 1

/-- The magnitude of q scaled by ten to the p and rounded half to even. -/
def scaledMag (p : ℕ) (q : ℚ) : ℕ := rheNat (q.num.natAbs * 10 ^ p) q.den

/-- Left-pads a digit string with zeros to the given length. -/
def padZeros (p : ℕ) (cs : List Char) : List Char := List.replicate (p - cs.length) '0' ++ cs

/-- Fixed-point float formatting with minimum width w and p decimal places:
round the magnitude to p decimals, render integer part, point and zero-padded
fraction, prepend a sign for negative values, and left-pad with spaces to
width w. -/
def fmtFixed (w p : ℕ) (q : ℚ) : String :=
  let m : ℕ := scaledMag p q
  let body : List Char :=
    (if q.num < 0 then ['-'] else [])
      ++ natDec (m / 10 ^ p) ++ '.' :: padZeros p (natDec (m % 10 ^ p))
  String.mk (List.replicate (w - body.length) ' ' ++ body)

/-- Formatting of a general float value: NaN and the infinities render as
their names, right-aligned in the field. -/
def fmtFixedP (w p : ℕ) : PVal → String
  | PVal.num q => fmtFixed w p q
  | PVal.nan => String.mk (List.replicate (w - 3) ' ' ++ ['n', 'a', 'n'])
  | PVal.inf false => String.mk (List.replicate (w - 3) ' ' ++ ['i', 'n', 'f'])
  | PVal.inf true => String.mk (List.replicate (w - 4) ' ' ++ ['-', 'i', 'n', 'f'])

/-- String formatting with minimum width 4, left-aligned (the 4s format). -/
def fmtLeft4 (s : String) : String := s ++ String.mk (List.replicate (4 - s.length) ' ')

/-- The cell line: the six lattice parameters, each formatted 12 wide with 6
decimal places, concatenated in the order a, b, c, alpha, beta, gamma. -/
def cellLine (a b c alpha beta gamma : ℚ) : String :=
  fmtFixed 12 6 a ++ fmtFixed 12 6 b ++ fmtFixed 12 6 c
    ++ fmtFixed 12 6 alpha ++ fmtFixed 12 6 beta ++ fmtFixed 12 6 gamma

/-- One atom line of the fractional block: 4-wide species label, three
12-wide 6-decimal coordinates and the core tag.  none models the TypeError
of unpacking a coordinate row that does not have exactly three entries. -/
def atomLine (site : String) (coord : List PVal) : Option String :=
  match coord with
  | [x, y, z] =>
    some (fmtLeft4 site ++ " " ++ fmtFixedP 12 6 x ++ " " ++ fmtFixedP 12 6 y ++ " "
      ++ fmtFixedP 12 6 z ++ " core ")
  | _ => none

/-- The atom lines, one per pair of the zip of coordinates and sites. -/
def atomLines (coords : List (List PVal)) (sites : List String) : Option (List String) :=
  (coords.zip sites).mapM (fun pr => atomLine pr.2 pr.1)

/-- The species block: each distinct species once, mapped to core.  The
source iterates over a Python set, whose order is unspecified; the model
uses the deduplicated site list. -/
def speciesLines (sites : List String) : List String :=
  sites.dedup.map (fun sp => fmtLeft4 sp ++ " core " ++ fmtLeft4 sp)

/-- The first line of the input deck, selected by the optimization kind. -/
def headLine (opt : String) : String :=
  if opt = "conv" then "opti conv conjugate nosymmetry"
  else if opt = "single" then "gradients noflag"
  else "opti stress " ++ opt ++ " conjugate nosymmetry"

/-- The full input deck as a list of lines (every chunk the source writes
ends with a newline, so the file is exactly these lines in order). -/
def writeLines (c : GULP) (L : Lattice) (coords : List (List PVal))
    (sites : List String) : Option (List String) :=
  (atomLines coords sites).map (fun als =>
    let para := L.get_para
    [headLine c.opt, "", "cell",
      cellLine para.1 para.2.1 para.2.2.1 para.2.2.2.1 para.2.2.2.2.1 para.2.2.2.2.2,
      "", "fractional"]
    ++ als
    ++ ["", "Species"] ++ speciesLines sites
    ++ ["", "library " ++ c.ff, "ewald 10.0"]
    ++ (if c.opt = "single" then [] else ["maxcycle " ++ toString c.steps])
    ++ ["output cif " ++ c.dump])

/-! The Runner and the filesystem.  The filesystem is a finite set of file
names; the shell redirection of execute creates the output file, the
external program may or may not create the dump file, and clean removes the
three transient files with os.remove, which raises when a file is absent. -/

/-- Python exception kinds distinguished by the model. -/
inductive PyExc where
  | attributeError
  | typeError
  | fileNotFoundError
deriving DecidableEq

/-- The filesystem: the set of existing file names. -/
abbrev FS := Finset String

/-- Models os.remove: delete the file, or raise FileNotFoundError. -/
def osRemove (f : String) (fs : FS) : Except (PyExc × FS) FS :=
  if f ∈ fs then Except.ok (fs.erase f) else Except.error (PyExc.fileNotFoundError, fs)

/-- Models GULP.write: read the lattice parameters (AttributeError when the
constructor never assigned a lattice, before any file is created), create
the input file, then serialise; accessing the never-assigned coordinates or
sites also raises, after the file was created. -/
def GULP.write (c : GULP) (fs : FS) : Except (PyExc × FS) (List String × FS) :=
  match c.lattice with
  | none => Except.error (PyExc.attributeError, fs)
  | some L =>
    let fs1 := insert c.input fs
    match c.frac_coords, c.sites with
    | some coords, some sites =>
      match writeLines c L coords sites with
      | some ls => Except.ok (ls, fs1)
      | none => Except.error (PyExc.typeError, fs1)
    | _, _ => Except.error (PyExc.attributeError, fs1)

/-- Models GULP.execute: the shell command redirects the input file into the
executable and its output into the output file, so the output file is
created (even when the executable fails); whether the external program also
produced the dump file is an oracle bit. -/
def GULP.execute (c : GULP) (dumpCreated : Bool) (fs : FS) : FS :=
  let fs1 := insert c.output fs
  if dumpCreated then insert c.dump fs1 else fs1

/-- Models GULP.clean: remove the input, output and dump files in order. -/
def GULP.clean (c : GULP) (fs : FS) : Except (PyExc × FS) FS :=
  match osRemove c.input fs with
  | Except.error e => Except.error e
  | Except.ok fs1 =>
    match osRemove c.output fs1 with
    | Except.error e => Except.error e
    | Except.ok fs2 => osRemove c.dump fs2

/-- Models GULP.run: write, execute, read, clean in sequence.  The lines the
external program wrote into the output file are an oracle.  read is total,
so clean is always reached once write succeeded; a failure of clean
propagates. -/
def GULP.run (c : GULP) (dumpCreated : Bool) (outLines : List String) (fs : FS) :
    Except (PyExc × FS) (GULP × FS) :=
  match GULP.write c fs with
  | Except.error e => Except.error e
  | Except.ok (_ls, fs1) =>
    let fs2 := GULP.execute c dumpCreated fs1
    let c2 := GULP.read outLines c
    match GULP.clean c2 fs2 with
    | Except.error e => Except.error e
    | Except.ok fs3 => Except.ok (c2, fs3)

/-- The filesystem reached by a run, whether or not it raised. -/
def runFS : Except (PyExc × FS) (GULP × FS) → FS
  | Except.ok (_, fs) => fs
  | Except.error (_, fs) => fs

/-! Orchestration: single_optimize and optimize.  The external program and
the conversions performed outside this repository's source (symmetrize_cell,
whose failure the source silently tolerates, and to_ase) are oracles: each
stage carries the captured output lines and the resulting structure. -/

/-- Addition of Python float values, used for accumulating CPU time. -/
def pvAdd : PVal → PVal → PVal
  | PVal.num a, PVal.num b => PVal.num (a + b)
  | PVal.nan, _ => PVal.nan
  | _, PVal.nan => PVal.nan
  | PVal.inf s, PVal.num _ => PVal.inf s
  | PVal.num _, PVal.inf s => PVal.inf s
  | PVal.inf s, PVal.inf t => if s = t then PVal.inf s else PVal.nan

/-- Models single_optimize: build a calculator for the (possibly
symmetrized) structure, run it against the captured output, and return
either the sentinel failure tuple (None, 100000, 0, True) or the converted
structure with energy, CPU time and a false error flag.  The mode argument
only steers the external symmetrization and is inert here. -/
def single_optimize (struc : Struc) (ff _mode opt : String) (out : List String)
    (res : Struc) : Option Struc × Option PVal × PVal × Bool :=
  let cal := GULP.init struc "_" ff opt 1000 "gulp" "gulp.in" "gulp.log" "opt.cif"
  let st := GULP.read out cal
  if st.error then (none, some (PVal.num 100000), PVal.num 0, true)
  else (some res, st.energy, st.cputime, false)

/-- One stage of a multi-stage optimization: the symmetry mode and
optimization kind of the caller-supplied pair, plus the oracles for the
external program's output and the structure it produced. -/
structure StageCfg where
  mode : String
  opt : String
  out : List String
  res : Struc
deriving DecidableEq

/-- The loop of optimize: run the stages in order, feeding each stage's
output structure into the next, accumulating CPU time; on the first error
return the sentinel tuple (None, 100000, 0, True) at once, skipping the
remaining stages.  acc carries the (structure, energy) of the last completed
stage; none after an empty loop models the unbound local variable. -/
def optLoop (ff : String) : Struc → List StageCfg → PVal →
    Option (Option Struc × Option PVal) →
    Option (Option Struc × Option PVal × PVal × Bool)
  | _, [], _, none => none
  | _, [], tt, some (s, e) => some (s, e, tt, false)
  | struc, stg :: rest, tt, _ =>
    match single_optimize struc ff stg.mode stg.opt stg.out stg.res with
    | (s, e, t, err) =>
      let tt2 := pvAdd tt t
      if err then some (none, some (PVal.num 100000), PVal.num 0, true)
      else optLoop ff stg.res rest tt2 (some (s, e))

/-- Models optimize: zip of modes and optimization kinds as a stage list,
total time starting at zero. -/
def optimize (struc : Struc) (ff : String) (stages : List StageCfg) :
    Option (Option Struc × Option PVal × PVal × Bool) :=
  optLoop ff struc stages (PVal.num 0) none

/-- Whether a run on the given captured output lines ends in the error
state.  The scan's control flow and the final energy depend only on the
lines, not on the structure-derived attributes, so this is well-defined
against a fixed fresh calculator. -/
def readErr (out : List String) : Bool :=
  (GULP.read out (GULP.mk0 Struc.other "_")).error

/-! Concrete fixtures used by the theorems below. -/

/-- A calculator freshly constructed (with default options) from a pyxtal
random_crystal with one atom of species X. -/
def baseCalc : GULP :=
  GULP.mk0 (Struc.randomCrystal (Lattice.ofParams 1 2 3 90 90 100) [[0, 0, 0]] ["X"]) "_"

/-- An output file holding a fractional-coordinates block: the marker, five
header lines, one data line for species Si, and the dashed separator. -/
def fracLines : List String :=
  ["Final fractional coordinates of atoms", "a", "b", "c", "d", "e",
    "  1  Si  c  0.100000  0.200000  0.300000", "------------"]

/-- C1: the coordinates block updates the stored fractional coordinates, but
the species list parsed alongside (token index 1 of each data line) is
discarded: the stored species list keeps its constructor value X even though
the block names species Si.  This witnesses that the second half of the
claim (the stored species list equals the parsed one) fails on the code. -/
theorem frac_block_species_discarded :
    (GULP.read fracLines baseCalc).frac_coords
        = some [[PVal.num (mkRat 1 10), PVal.num (mkRat 2 10), PVal.num (mkRat 3 10)]]
      ∧ fracLoop fracLines 5
        = some ([[PVal.num (mkRat 1 10), PVal.num (mkRat 2 10), PVal.num (mkRat 3 10)]], ["Si"])
      ∧ (GULP.read fracLines baseCalc).sites = baseCalc.sites
      ∧ baseCalc.sites = some ["X"]
      ∧ some ["Si"] ≠ baseCalc.sites := by
  refine ⟨by decide, by decide, by decide, by decide, by decide⟩

/-- C9 counterexample: the dump file name is not prefixed by the label, and
two calculators with distinct labels share the same dump file name, so the
three transient file names are not pairwise distinct across labels. -/
theorem dump_not_label_prefixed :
    (GULP.mk0 Struc.other "A_").label = "A_"
      ∧ (GULP.mk0 Struc.other "B_").label = "B_"
      ∧ (GULP.mk0 Struc.other "A_").dump = (GULP.mk0 Struc.other "B_").dump
      ∧ "A_".toList.isPrefixOf (GULP.mk0 Struc.other "A_").dump.toList = false := by
  decide

/-- C9 (amended): the label prefixes the input and output file names, so
distinct labels give distinct input and output names; the dump name is the
unprefixed caller-supplied name, shared across labels. -/
theorem label_namespaces_input_output (struc : Struc) (l1 l2 ff opt exe inp out dmp : String)
    (steps : ℕ) (h : l1 ≠ l2) :
    (GULP.init struc l1 ff opt steps exe inp out dmp).input = l1 ++ inp
      ∧ (GULP.init struc l1 ff opt steps exe inp out dmp).output = l1 ++ out
      ∧ (GULP.init struc l1 ff opt steps exe inp out dmp).dump = dmp
      ∧ (GULP.init struc l2 ff opt steps exe inp out dmp).dump = dmp
      ∧ (GULP.init struc l1 ff opt steps exe inp out dmp).input
          ≠ (GULP.init struc l2 ff opt steps exe inp out dmp).input
      ∧ (GULP.init struc l1 ff opt steps exe inp out dmp).output
          ≠ (GULP.init struc l2 ff opt steps exe inp out dmp).output := by
  refine ⟨rfl, rfl, rfl, rfl, ?_, ?_⟩
  · show l1 ++ inp ≠ l2 ++ inp
    intro heq
    apply h
    have hd := congrArg String.data heq
    simp only [String.data_append] at hd
    exact String.ext (List.append_cancel_right hd)
  · show l1 ++ out ≠ l2 ++ out
    intro heq
    apply h
    have hd := congrArg String.data heq
    simp only [String.data_append] at hd
    exact String.ext (List.append_cancel_right hd)

/-- Witness for the amended C9 theorem at concrete labels. -/
theorem label_namespaces_input_output_witness :
    ("A_" : String) ≠ "B_"
      ∧ ((GULP.init Struc.other "A_" "reax" "conp" 1000 "gulp" "gulp.in" "gulp.log" "opt.cif").input
            = "A_" ++ "gulp.in"
          ∧ (GULP.init Struc.other "A_" "reax" "conp" 1000 "gulp" "gulp.in" "gulp.log" "opt.cif").output
            = "A_" ++ "gulp.log"
          ∧ (GULP.init Struc.other "A_" "reax" "conp" 1000 "gulp" "gulp.in" "gulp.log" "opt.cif").dump
            = "opt.cif"
          ∧ (GULP.init Struc.other "B_" "reax" "conp" 1000 "gulp" "gulp.in" "gulp.log" "opt.cif").dump
            = "opt.cif"
          ∧ (GULP.init Struc.other "A_" "reax" "conp" 1000 "gulp" "gulp.in" "gulp.log" "opt.cif").input
            ≠ (GULP.init Struc.other "B_" "reax" "conp" 1000 "gulp" "gulp.in" "gulp.log" "opt.cif").input
          ∧ (GULP.init Struc.other "A_" "reax" "conp" 1000 "gulp" "gulp.in" "gulp.log" "opt.cif").output
            ≠ (GULP.init Struc.other "B_" "reax" "conp" 1000 "gulp" "gulp.in" "gulp.log" "opt.cif").output) :=
  ⟨by decide, label_namespaces_input_output Struc.other "A_" "B_" "reax" "conp" "gulp"
    "gulp.in" "gulp.log" "opt.cif" 1000 (by decide)⟩

/-- C10: constructing the calculator from a structure that is neither a
random_crystal nor an Atoms object returns normally (GULP.init is total) but
leaves the lattice, fractional-coordinate and species attributes unassigned;
a subsequent write (and hence run) raises an attribute-access error before
creating any file, rather than producing an input file or a sentinel-flagged
result. -/
theorem init_other_write_fails (label ff opt exe inp out dmp : String) (steps : ℕ) :
    (GULP.init Struc.other label ff opt steps exe inp out dmp).lattice = none
      ∧ (GULP.init Struc.other label ff opt steps exe inp out dmp).frac_coords = none
      ∧ (GULP.init Struc.other label ff opt steps exe inp out dmp).sites = none
      ∧ (∀ fs : FS, GULP.write (GULP.init Struc.other label ff opt steps exe inp out dmp) fs
          = Except.error (PyExc.attributeError, fs))
      ∧ (∀ (fs : FS) (b : Bool) (o : List String),
          GULP.run (GULP.init Struc.other label ff opt steps exe inp out dmp) b o fs
            = Except.error (PyExc.attributeError, fs)) := by
  refine ⟨rfl, rfl, rfl, fun fs => rfl, fun fs b o => rfl⟩

/-! Structural lemmas about one scan step and about the scanning loop. -/

/-- A line that reaches and fires the Job Finished branch: the energy
pattern (tried first) does not match, and the marker is present. -/
def jfLine (l : String) : Bool := (matchEnergy l).isNone && findHit l "Job Finished"

/-- An energy value that makes the post-scan check of read fire: a missing
(never assigned) energy, or NaN. -/
def energyBad : Option PVal → Bool
  | none => true
  | some PVal.nan => true
  | some (PVal.num _) => false
  | some (PVal.inf _) => false

lemma step_char {lines : List String} {i : ℕ} {l : String} {st st2 : GULP}
    (h : GULP.step lines i l st = some st2) :
    st2.error = st.error ∧ st2.sites = st.sites
      ∧ st2.input = st.input ∧ st2.output = st.output ∧ st2.dump = st.dump
      ∧ st2.optimized = (st.optimized || jfLine l)
      ∧ (matchEnergy l = none → st2.energy = st.energy) := by
  unfold GULP.step at h
  cases heq : matchEnergy l with
  | some tok =>
    rw [heq] at h
    obtain ⟨v, -, rfl⟩ := Option.map_eq_some'.mp h
    exact ⟨rfl, rfl, rfl, rfl, rfl, by simp [jfLine, heq], fun hc => by simp [heq] at hc⟩
  | none =>
    rw [heq] at h
    have hjf : jfLine l = findHit l "Job Finished" := by simp [jfLine, heq]
    by_cases h1 : findHit l "Job Finished" = true
    · rw [if_pos h1] at h
      cases h
      exact ⟨rfl, rfl, rfl, rfl, rfl, by simp [hjf, h1], fun _ => rfl⟩
    · rw [if_neg h1] at h
      have hopt : (st.optimized || jfLine l) = st.optimized := by
        rw [hjf, Bool.eq_false_iff.mpr h1, Bool.or_false]
      by_cases h2 : findHit l "Total CPU time" = true
      · rw [if_pos h2] at h
        rcases hg : (pySplit l).getLast? with - | tok
        · rw [hg] at h; exact absurd h (by simp)
        · rw [hg] at h
          obtain ⟨v, -, rfl⟩ := Option.map_eq_some'.mp h
          exact ⟨rfl, rfl, rfl, rfl, rfl, by rw [hopt], fun _ => rfl⟩
      · rw [if_neg h2] at h
        by_cases h3 : findHit l "Final stress tensor components" = true
        · rw [if_pos h3] at h
          obtain ⟨sv, -, rfl⟩ := Option.map_eq_some'.mp h
          exact ⟨rfl, rfl, rfl, rfl, rfl, by rw [hopt], fun _ => rfl⟩
        · rw [if_neg h3] at h
          by_cases h4 : findHit l " Cycle: " = true
          · rw [if_pos h4] at h
            rcases hg : (pySplit l)[1]? with - | tok
            · rw [hg] at h; exact absurd h (by simp)
            · rw [hg] at h
              obtain ⟨n, -, rfl⟩ := Option.map_eq_some'.mp h
              exact ⟨rfl, rfl, rfl, rfl, rfl, by rw [hopt], fun _ => rfl⟩
          · rw [if_neg h4] at h
            by_cases h5 : findHit l "Final fractional coordinates of atoms" = true
            · rw [if_pos h5] at h
              obtain ⟨pr, -, rfl⟩ := Option.map_eq_some'.mp h
              exact ⟨rfl, rfl, rfl, rfl, rfl, by rw [hopt], fun _ => rfl⟩
            · rw [if_neg h5] at h
              by_cases h6 : findHit l "Final Cartesian lattice vectors" = true
              · rw [if_pos h6] at h
                obtain ⟨m, -, rfl⟩ := Option.map_eq_some'.mp h
                exact ⟨rfl, rfl, rfl, rfl, rfl, by rw [hopt], fun _ => rfl⟩
              · rw [if_neg h6] at h
                cases h
                exact ⟨rfl, rfl, rfl, rfl, rfl, by rw [hopt], fun _ => rfl⟩

lemma step_isSome_congr (lines : List String) (i : ℕ) (l : String) (st st' : GULP) :
    (GULP.step lines i l st).isSome = (GULP.step lines i l st').isSome := by
  unfold GULP.step
  cases matchEnergy l with
  | some tok => simp
  | none =>
    by_cases h1 : findHit l "Job Finished" = true
    · simp [h1]
    · rw [if_neg h1, if_neg h1]
      by_cases h2 : findHit l "Total CPU time" = true
      · rw [if_pos h2, if_pos h2]
        rcases (pySplit l).getLast? with - | tok <;> simp
      · rw [if_neg h2, if_neg h2]
        by_cases h3 : findHit l "Final stress tensor components" = true
        · simp [h3]
        · rw [if_neg h3, if_neg h3]
          by_cases h4 : findHit l " Cycle: " = true
          · rw [if_pos h4, if_pos h4]
            rcases (pySplit l)[1]? with - | tok <;> simp
          · rw [if_neg h4, if_neg h4]
            by_cases h5 : findHit l "Final fractional coordinates of atoms" = true
            · simp [h5]
            · rw [if_neg h5, if_neg h5]
              by_cases h6 : findHit l "Final Cartesian lattice vectors" = true
              · simp [h6]
              · simp [h6]

lemma step_energy_congr {lines : List String} {i : ℕ} {l : String} {st st' st2 st2' : GULP}
    (h : GULP.step lines i l st = some st2) (h' : GULP.step lines i l st' = some st2')
    (he : st.energy = st'.energy) : st2.energy = st2'.energy := by
  cases heq : matchEnergy l with
  | some tok =>
    unfold GULP.step at h h'
    rw [heq] at h h'
    obtain ⟨v, hv, rfl⟩ := Option.map_eq_some'.mp h
    obtain ⟨v', hv', rfl⟩ := Option.map_eq_some'.mp h'
    rw [hv] at hv'
    cases hv'
    rfl
  | none =>
    rw [(step_char h).2.2.2.2.2.2 heq, (step_char h').2.2.2.2.2.2 heq]
    exact he

lemma scanGo_error (lines : List String) :
    ∀ (rest : List String) (i : ℕ) (st : GULP),
      ((GULP.scanGo lines i st rest).1).error = st.error := by
  intro rest
  induction rest with
  | nil => intro i st; rfl
  | cons l rest ih =>
    intro i st
    unfold GULP.scanGo
    cases h : GULP.step lines i l st with
    | none => rfl
    | some st2 => rw [ih (i + 1) st2]; exact (step_char h).1

lemma scanGo_sites (lines : List String) :
    ∀ (rest : List String) (i : ℕ) (st : GULP),
      ((GULP.scanGo lines i st rest).1).sites = st.sites := by
  intro rest
  induction rest with
  | nil => intro i st; rfl
  | cons l rest ih =>
    intro i st
    unfold GULP.scanGo
    cases h : GULP.step lines i l st with
    | none => rfl
    | some st2 => rw [ih (i + 1) st2]; exact (step_char h).2.1

lemma scanGo_optimized (lines : List String) :
    ∀ (rest : List String) (i : ℕ) (st : GULP),
      ((GULP.scanGo lines i st rest).1).optimized
        = (st.optimized || (rest.take (scanSteps lines i st rest)).any (fun l => jfLine l)) := by
  intro rest
  induction rest with
  | nil => intro i st; simp [GULP.scanGo, scanSteps]
  | cons l rest ih =>
    intro i st
    unfold GULP.scanGo scanSteps
    cases h : GULP.step lines i l st with
    | none => simp
    | some st2 =>
      rw [ih (i + 1) st2, (step_char h).2.2.2.2.2.1]
      simp [List.take_cons, Bool.or_assoc]

lemma scanGo_energy_nomatch (lines : List String) :
    ∀ (rest : List String) (i : ℕ) (st : GULP),
      (∀ l ∈ rest, matchEnergy l = none) →
      ((GULP.scanGo lines i st rest).1).energy = st.energy := by
  intro rest
  induction rest with
  | nil => intro i st _; rfl
  | cons l rest ih =>
    intro i st hnm
    unfold GULP.scanGo
    cases h : GULP.step lines i l st with
    | none => rfl
    | some st2 =>
      rw [ih (i + 1) st2 (fun x hx => hnm x (List.mem_cons_of_mem l hx))]
      exact (step_char h).2.2.2.2.2.2 (hnm l (List.mem_cons_self l rest))

lemma scanGo_congr (lines : List String) :
    ∀ (rest : List String) (i : ℕ) (st st' : GULP), st.energy = st'.energy →
      (GULP.scanGo lines i st rest).2 = (GULP.scanGo lines i st' rest).2
        ∧ ((GULP.scanGo lines i st rest).1).energy = ((GULP.scanGo lines i st' rest).1).energy := by
  intro rest
  induction rest with
  | nil => intro i st st' he; exact ⟨rfl, he⟩
  | cons l rest ih =>
    intro i st st' he
    have hsome := step_isSome_congr lines i l st st'
    unfold GULP.scanGo
    cases h : GULP.step lines i l st with
    | none =>
      rw [h] at hsome
      cases h' : GULP.step lines i l st' with
      | none => exact ⟨rfl, he⟩
      | some st2' => rw [h'] at hsome; simp at hsome
    | some st2 =>
      rw [h] at hsome
      cases h' : GULP.step lines i l st' with
      | none => rw [h'] at hsome; simp at hsome
      | some st2' => exact ih (i + 1) st2 st2' (step_energy_congr h h' he)

lemma read_optimized (lines : List String) (st0 : GULP) :
    (GULP.read lines st0).optimized = (GULP.scan lines st0).1.optimized := by
  unfold GULP.read
  rcases GULP.scan lines st0 with ⟨st, b⟩
  cases b
  · cases hE : st.energy with
    | none => simp [hE]
    | some v => cases v <;> simp [hE]
  · rfl

lemma read_error_eq (lines : List String) (st0 : GULP) :
    (GULP.read lines st0).error
      = ((GULP.scan lines st0).2 || energyBad (GULP.scan lines st0).1.energy
          || (GULP.scan lines st0).1.error) := by
  unfold GULP.read
  rcases GULP.scan lines st0 with ⟨st, b⟩
  cases b
  · cases hE : st.energy with
    | none => simp [hE, energyBad]
    | some v => cases v <;> simp [hE, energyBad]
  · simp

/-- C4: any exception raised during the scan is caught inside read, which
sets the error flag and the sentinel energy 100000 on the state reached so
far instead of propagating; read itself is a total function. -/
theorem read_catches_scan_exception (lines : List String) (st0 : GULP)
    (h : (GULP.scan lines st0).2 = true) :
    GULP.read lines st0
      = { (GULP.scan lines st0).1 with error := true, energy := some (PVal.num 100000) } := by
  unfold GULP.read
  rcases hs : GULP.scan lines st0 with ⟨st, b⟩
  rw [hs] at h
  cases b
  · exact absurd h (by simp)
  · rfl

/-- Witness for C4 at a truncated stress-free file: the lattice-vectors
marker with no following lines raises inside the scan. -/
theorem read_catches_scan_exception_witness :
    (GULP.scan ["Final Cartesian lattice vectors"] baseCalc).2 = true
      ∧ GULP.read ["Final Cartesian lattice vectors"] baseCalc
          = { (GULP.scan ["Final Cartesian lattice vectors"] baseCalc).1 with
              error := true, energy := some (PVal.num 100000) } :=
  ⟨by decide, read_catches_scan_exception ["Final Cartesian lattice vectors"] baseCalc (by decide)⟩

/-- C3: starting from the constructor state (energy unassigned), if no line
matches the energy pattern then read ends with the error flag set and the
sentinel energy 100000; likewise when the scan completes and the last
matched energy parsed as NaN; and in every case the final energy is an
assigned non-NaN value. -/
theorem read_energy_missing_or_nan (lines : List String) (st0 : GULP)
    (h0 : st0.energy = none) :
    ((∀ l ∈ lines, matchEnergy l = none) →
        (GULP.read lines st0).error = true
          ∧ (GULP.read lines st0).energy = some (PVal.num 100000))
      ∧ ((GULP.scan lines st0).2 = false → (GULP.scan lines st0).1.energy = some PVal.nan →
          (GULP.read lines st0).error = true
            ∧ (GULP.read lines st0).energy = some (PVal.num 100000))
      ∧ (∃ v, (GULP.read lines st0).energy = some v ∧ v ≠ PVal.nan) := by
  refine ⟨?_, ?_, ?_⟩
  · intro hnm
    have hE : ((GULP.scan lines st0).1).energy = none := by
      unfold GULP.scan
      rw [scanGo_energy_nomatch lines lines 0 st0 hnm, h0]
    unfold GULP.read
    rcases hs : GULP.scan lines st0 with ⟨st, b⟩
    rw [hs] at hE
    cases b
    · have hE1 : st.energy = none := hE
      simp only [hE1]
      exact ⟨trivial, trivial⟩
    · exact ⟨rfl, rfl⟩
  · intro hb hE
    unfold GULP.read
    rcases hs : GULP.scan lines st0 with ⟨st, b⟩
    rw [hs] at hb hE
    cases b
    · have hE1 : st.energy = some PVal.nan := hE
      simp only [hE1]
      exact ⟨trivial, trivial⟩
    · exact absurd hb (by simp)
  · unfold GULP.read
    rcases GULP.scan lines st0 with ⟨st, b⟩
    cases b
    · cases hE : st.energy with
      | none => simp only [hE]; exact ⟨PVal.num 100000, rfl, by simp⟩
      | some v =>
        cases v with
        | num q => simp only [hE]; exact ⟨PVal.num q, rfl, by simp⟩
        | nan => simp only [hE]; exact ⟨PVal.num 100000, rfl, by simp⟩
        | inf s => simp only [hE]; exact ⟨PVal.inf s, rfl, by simp⟩
    · exact ⟨PVal.num 100000, rfl, by simp⟩

/-- Witness for C3 at the empty output file. -/
theorem read_energy_missing_or_nan_witness :
    baseCalc.energy = none
      ∧ (((∀ l ∈ ([] : List String), matchEnergy l = none) →
            (GULP.read [] baseCalc).error = true
              ∧ (GULP.read [] baseCalc).energy = some (PVal.num 100000))
          ∧ ((GULP.scan [] baseCalc).2 = false →
              (GULP.scan [] baseCalc).1.energy = some PVal.nan →
              (GULP.read [] baseCalc).error = true
                ∧ (GULP.read [] baseCalc).energy = some (PVal.num 100000))
          ∧ (∃ v, (GULP.read [] baseCalc).energy = some v ∧ v ≠ PVal.nan)) :=
  ⟨by decide, read_energy_missing_or_nan [] baseCalc (by decide)⟩

/-- C5 (amended): starting from the constructor state, the converged flag
ends true exactly when, among the lines the scan processes before any
exception aborts it, some line contains Job Finished and is not captured by
the energy pattern tried first; if no line contains the marker the flag
stays false; and the error flag is set exactly when the scan raised or the
final energy is missing or NaN — the absence of Job Finished alone never
sets it. -/
theorem read_converged_iff (lines : List String) (st0 : GULP)
    (hopt : st0.optimized = false) (herr : st0.error = false) :
    ((GULP.read lines st0).optimized = true
        ↔ ∃ l ∈ lines.take (scanSteps lines 0 st0 lines), jfLine l = true)
      ∧ ((∀ l ∈ lines, findHit l "Job Finished" = false) →
          (GULP.read lines st0).optimized = false)
      ∧ ((GULP.read lines st0).error
          = ((GULP.scan lines st0).2 || energyBad (GULP.scan lines st0).1.energy)) := by
  have hiff : (GULP.read lines st0).optimized = true
      ↔ ∃ l ∈ lines.take (scanSteps lines 0 st0 lines), jfLine l = true := by
    rw [read_optimized]
    unfold GULP.scan
    rw [scanGo_optimized lines lines 0 st0, hopt, Bool.false_or]
    exact List.any_eq_true
  refine ⟨hiff, ?_, ?_⟩
  · intro hnone
    rw [Bool.eq_false_iff]
    intro htrue
    obtain ⟨l, hl, hjf⟩ := hiff.mp htrue
    have : findHit l "Job Finished" = true := by
      simp only [jfLine, Bool.and_eq_true] at hjf
      exact hjf.2
    rw [hnone l (List.take_subset _ _ hl)] at this
    exact Bool.noConfusion this
  · rw [read_error_eq]
    unfold GULP.scan
    rw [scanGo_error lines lines 0 st0, herr, Bool.or_false]

/-- Witness for the amended C5 theorem on a file holding only the marker. -/
theorem read_converged_iff_witness :
    baseCalc.optimized = false ∧ baseCalc.error = false
      ∧ (((GULP.read ["Job Finished"] baseCalc).optimized = true
            ↔ ∃ l ∈ (["Job Finished"] : List String).take
                (scanSteps ["Job Finished"] 0 baseCalc ["Job Finished"]), jfLine l = true)
          ∧ ((∀ l ∈ (["Job Finished"] : List String), findHit l "Job Finished" = false) →
              (GULP.read ["Job Finished"] baseCalc).optimized = false)
          ∧ ((GULP.read ["Job Finished"] baseCalc).error
              = ((GULP.scan ["Job Finished"] baseCalc).2
                  || energyBad (GULP.scan ["Job Finished"] baseCalc).1.energy))) :=
  ⟨by decide, by decide, read_converged_iff ["Job Finished"] baseCalc (by decide) (by decide)⟩

/-- C5 counterexample: a file whose first line opens a stress block that
raises (the file ends before the expected component lines) and whose second
line contains Job Finished.  Some line of the file contains the marker, yet
the converged flag ends false, refuting the claimed equivalence as stated. -/
theorem job_finished_present_but_not_converged :
    (∃ l ∈ (["Final stress tensor components", "Job Finished"] : List String),
        findHit l "Job Finished" = true)
      ∧ (GULP.read ["Final stress tensor components", "Job Finished"] baseCalc).optimized
          = false := by
  exact ⟨⟨"Job Finished", by decide, by decide⟩, by decide⟩

/-! The multi-stage orchestration: error short-circuiting. -/

lemma read_error_congr (out : List String) (st0 st0' : GULP)
    (he : st0.energy = st0'.energy) (h1 : st0.error = st0'.error) :
    (GULP.read out st0).error = (GULP.read out st0').error := by
  rw [read_error_eq, read_error_eq]
  unfold GULP.scan
  have hc := scanGo_congr out out 0 st0 st0' he
  rw [hc.1, hc.2, scanGo_error, scanGo_error, h1]

lemma single_optimize_error_eq (struc : Struc) (ff mode opt : String) (out : List String)
    (res : Struc) : (single_optimize struc ff mode opt out res).2.2.2 = readErr out := by
  have h := read_error_congr out
    (GULP.init struc "_" ff opt 1000 "gulp" "gulp.in" "gulp.log" "opt.cif")
    (GULP.init Struc.other "_" "reax" "conp" 1000 "gulp" "gulp.in" "gulp.log" "opt.cif")
    rfl rfl
  unfold single_optimize readErr GULP.mk0
  rw [← h]
  cases hb : (GULP.read out
      (GULP.init struc "_" ff opt 1000 "gulp" "gulp.in" "gulp.log" "opt.cif")).error <;>
    simp [hb]

lemma optLoop_first_error (ff : String) :
    ∀ (pre : List StageCfg) (struc : Struc) (tt : PVal)
      (acc : Option (Option Struc × Option PVal)) (e : StageCfg) (post : List StageCfg),
      (∀ s ∈ pre, readErr s.out = false) → readErr e.out = true →
      optLoop ff struc (pre ++ e :: post) tt acc
        = some (none, some (PVal.num 100000), PVal.num 0, true) := by
  intro pre
  induction pre with
  | nil =>
    intro struc tt acc e post _ he
    rcases hS : single_optimize struc ff e.mode e.opt e.out e.res with ⟨s, en, t, err⟩
    have herr : err = true := by
      have h2 := single_optimize_error_eq struc ff e.mode e.opt e.out e.res
      rw [hS] at h2
      exact h2.trans he
    subst herr
    simp [optLoop, hS]
  | cons s0 pre ih =>
    intro struc tt acc e post hpre he
    rcases hS : single_optimize struc ff s0.mode s0.opt s0.out s0.res with ⟨s, en, t, err⟩
    have herr : err = false := by
      have h2 := single_optimize_error_eq struc ff s0.mode s0.opt s0.out s0.res
      rw [hS] at h2
      exact h2.trans (hpre s0 (List.mem_cons_self s0 pre))
    subst herr
    simp only [List.cons_append, optLoop, hS, Bool.false_eq_true, if_false]
    exact ih s0.res (pvAdd tt t) (some (s, en)) e post
      (fun x hx => hpre x (List.mem_cons_of_mem s0 hx)) he

/-- C2 (amended): as soon as a stage of the multi-stage optimize errors, the
remaining stages are not attempted (the result is the same as if the chain
ended at the failing stage) and the returned tuple is the sentinel
(None, 100000, 0, True): the CPU time accumulated so far is discarded and a
literal zero is returned in the time slot. -/
theorem optimize_error_short_circuits (struc : Struc) (ff : String)
    (pre : List StageCfg) (e : StageCfg) (post : List StageCfg)
    (hpre : ∀ s ∈ pre, readErr s.out = false) (he : readErr e.out = true) :
    optimize struc ff (pre ++ e :: post) = some (none, some (PVal.num 100000), PVal.num 0, true)
      ∧ optimize struc ff (pre ++ e :: post) = optimize struc ff (pre ++ [e]) := by
  have h1 := optLoop_first_error ff pre struc (PVal.num 0) none e post hpre he
  have h2 := optLoop_first_error ff pre struc (PVal.num 0) none e [] hpre he
  unfold optimize
  rw [h1, h2]
  exact ⟨rfl, rfl⟩

/-- A captured output file of a successful stage: a parsable energy and a
CPU time of five seconds. -/
def stageOkOut : List String :=
  ["  Total lattice energy       =         -12.5 eV", "  Total CPU time  5.0"]

/-- Witness for the amended C2 theorem: one good stage, one failing stage
(empty output), and a third stage that is never attempted. -/
theorem optimize_error_short_circuits_witness :
    ((∀ s ∈ [StageCfg.mk "C" "conp" stageOkOut Struc.other], readErr s.out = false)
        ∧ readErr (StageCfg.mk "C" "conp" [] Struc.other).out = true)
      ∧ (optimize Struc.other "reax"
            ([StageCfg.mk "C" "conp" stageOkOut Struc.other]
              ++ StageCfg.mk "C" "conp" [] Struc.other
                :: [StageCfg.mk "C" "conp" stageOkOut Struc.other])
          = some (none, some (PVal.num 100000), PVal.num 0, true)
        ∧ optimize Struc.other "reax"
            ([StageCfg.mk "C" "conp" stageOkOut Struc.other]
              ++ StageCfg.mk "C" "conp" [] Struc.other
                :: [StageCfg.mk "C" "conp" stageOkOut Struc.other])
          = optimize Struc.other "reax"
              ([StageCfg.mk "C" "conp" stageOkOut Struc.other]
                ++ [StageCfg.mk "C" "conp" [] Struc.other])) :=
  ⟨⟨by decide, by decide⟩,
    optimize_error_short_circuits Struc.other "reax"
      [StageCfg.mk "C" "conp" stageOkOut Struc.other]
      (StageCfg.mk "C" "conp" [] Struc.other)
      [StageCfg.mk "C" "conp" stageOkOut Struc.other] (by decide) (by decide)⟩

/-- C2 counterexample: a chain whose first stage succeeds with five seconds
of CPU time and whose second stage errors returns 0 in the time slot of the
sentinel tuple, not the accumulated time 5, refuting the claim as stated. -/
theorem optimize_returns_zero_time_on_error :
    optimize Struc.other "reax"
        [StageCfg.mk "C" "conp" stageOkOut Struc.other, StageCfg.mk "C" "conp" [] Struc.other]
        = some (none, some (PVal.num 100000), PVal.num 0, true)
      ∧ (single_optimize Struc.other "reax" "C" "conp" stageOkOut Struc.other).2.2.1
          = PVal.num 5
      ∧ PVal.num 0 ≠ PVal.num 5 := by
  exact ⟨by decide, by decide, by decide⟩

/-! The stress block layout. -/

/-- C6: when the scan reaches a line containing the stress marker (and hit
by none of the branches tried before it), it reads the lines at offsets 3,
4 and 5 below the marker and stores the six-component vector whose entry j
is the float of token index 1 of line i+3+j and whose entry j+3 is the
float of token index 3 of that same line: three normal components followed
by three shear components. -/
theorem stress_block_layout (lines : List String) (i : ℕ) (l l3 l4 l5 : String) (st : GULP)
    (a1 a3 b1 b3 c1 c3 : String) (v1 v3 w1 w3 x1 x3 : PVal)
    (hl : lines[i]? = some l)
    (h1 : matchEnergy l = none)
    (h2 : findHit l "Job Finished" = false)
    (h3 : findHit l "Total CPU time" = false)
    (h4 : findHit l "Final stress tensor components" = true)
    (h5 : lines[i + 3]? = some l3) (h6 : lines[i + 4]? = some l4) (h7 : lines[i + 5]? = some l5)
    (h8 : (pySplit l3)[1]? = some a1) (h9 : (pySplit l3)[3]? = some a3)
    (h10 : (pySplit l4)[1]? = some b1) (h11 : (pySplit l4)[3]? = some b3)
    (h12 : (pySplit l5)[1]? = some c1) (h13 : (pySplit l5)[3]? = some c3)
    (hv1 : pyFloat? a1 = some v1) (hv3 : pyFloat? a3 = some v3)
    (hw1 : pyFloat? b1 = some w1) (hw3 : pyFloat? b3 = some w3)
    (hx1 : pyFloat? c1 = some x1) (hx3 : pyFloat? c3 = some x3) :
    GULP.step lines i l st = some { st with stress := some [v1, w1, x1, v3, w3, x3] } := by
  unfold GULP.step
  rw [h1, if_neg (by simp [h2]), if_neg (by simp [h3]), if_pos h4]
  unfold readStress stressRow
  rw [h5, h6, h7]
  dsimp only
  rw [h8, h9, h10, h11, h12, h13]
  dsimp only
  rw [hv1, hv3, hw1, hw3, hx1, hx3]
  rfl

/-- Witness for C6 on a concrete stress block. -/
theorem stress_block_layout_witness :
    GULP.step
        ["  Final stress tensor components", "", "",
          "  xx 1.0 yy 4.0", "  xx 2.0 yy 5.0", "  xx 3.0 yy 6.0"]
        0 "  Final stress tensor components" baseCalc
      = some { baseCalc with
          stress := some [PVal.num 1, PVal.num 2, PVal.num 3,
            PVal.num 4, PVal.num 5, PVal.num 6] } :=
  stress_block_layout
    ["  Final stress tensor components", "", "",
      "  xx 1.0 yy 4.0", "  xx 2.0 yy 5.0", "  xx 3.0 yy 6.0"]
    0 "  Final stress tensor components" "  xx 1.0 yy 4.0" "  xx 2.0 yy 5.0" "  xx 3.0 yy 6.0"
    baseCalc "1.0" "4.0" "2.0" "5.0" "3.0" "6.0"
    (PVal.num 1) (PVal.num 4) (PVal.num 2) (PVal.num 5) (PVal.num 3) (PVal.num 6)
    (by decide) (by decide) (by decide) (by decide) (by decide) (by decide) (by decide)
    (by decide) (by decide) (by decide) (by decide) (by decide) (by decide) (by decide)
    (by decide) (by decide) (by decide) (by decide) (by decide) (by decide)

/-! The run lifecycle: the transient input and output files are gone after
any run, whatever the parse outcome. -/

/-- The filesystem carried by a clean result, raised or not. -/
def exceptFS : Except (PyExc × FS) FS → FS
  | Except.ok fs => fs
  | Except.error (_, fs) => fs

lemma write_ok_fs {c : GULP} {fs : FS} {ls : List String} {fs1 : FS}
    (h : GULP.write c fs = Except.ok (ls, fs1)) : fs1 = insert c.input fs := by
  unfold GULP.write at h
  split at h
  · exact Except.noConfusion h
  · split at h
    · split at h
      · cases h
        rfl
      · exact Except.noConfusion h
    · exact Except.noConfusion h

lemma scanGo_files (lines : List String) :
    ∀ (rest : List String) (i : ℕ) (st : GULP),
      ((GULP.scanGo lines i st rest).1).input = st.input
        ∧ ((GULP.scanGo lines i st rest).1).output = st.output
        ∧ ((GULP.scanGo lines i st rest).1).dump = st.dump := by
  intro rest
  induction rest with
  | nil => intro i st; exact ⟨rfl, rfl, rfl⟩
  | cons l rest ih =>
    intro i st
    unfold GULP.scanGo
    cases h : GULP.step lines i l st with
    | none => exact ⟨rfl, rfl, rfl⟩
    | some st2 =>
      obtain ⟨hi, ho, hd⟩ := ih (i + 1) st2
      obtain ⟨-, -, hi2, ho2, hd2, -, -⟩ := step_char h
      exact ⟨hi.trans hi2, ho.trans ho2, hd.trans hd2⟩

lemma read_files (lines : List String) (st0 : GULP) :
    (GULP.read lines st0).input = st0.input
      ∧ (GULP.read lines st0).output = st0.output
      ∧ (GULP.read lines st0).dump = st0.dump := by
  have hs := scanGo_files lines lines 0 st0
  unfold GULP.read GULP.scan
  unfold GULP.scan at hs
  rcases h : GULP.scanGo lines 0 st0 lines with ⟨st, b⟩
  rw [h] at hs
  cases b
  · cases hE : st.energy with
    | none => simpa [hE] using hs
    | some v => cases v <;> simpa [hE] using hs
  · simpa using hs

lemma clean_excludes (c2 : GULP) (fs : FS) (hi : c2.input ∈ fs) :
    c2.input ∉ exceptFS (GULP.clean c2 fs)
      ∧ (c2.output ∈ fs → c2.output ∉ exceptFS (GULP.clean c2 fs)) := by
  unfold GULP.clean osRemove
  rw [if_pos hi]
  dsimp only
  by_cases ho : c2.output ∈ fs.erase c2.input
  · rw [if_pos ho]
    dsimp only
    by_cases hd : c2.dump ∈ (fs.erase c2.input).erase c2.output
    · rw [if_pos hd]
      constructor
      · simp [exceptFS, Finset.mem_erase]
      · intro _
        simp [exceptFS, Finset.mem_erase]
    · rw [if_neg hd]
      constructor
      · simp [exceptFS, Finset.mem_erase]
      · intro _
        simp [exceptFS, Finset.mem_erase]
  · rw [if_neg ho]
    constructor
    · simp [exceptFS, Finset.mem_erase]
    · intro hof
      by_cases heq : c2.output = c2.input
      · rw [heq]
        simp [exceptFS, Finset.mem_erase]
      · exact absurd (Finset.mem_erase.mpr ⟨heq, hof⟩) ho

lemma runFS_clean (c2 : GULP) (fs2 : FS) :
    runFS (match GULP.clean c2 fs2 with
      | Except.error e => Except.error e
      | Except.ok fs3 => Except.ok (c2, fs3)) = exceptFS (GULP.clean c2 fs2) := by
  rcases GULP.clean c2 fs2 with ⟨exc, fs3⟩ | fs3 <;> rfl

/-- C8: once write succeeded, a run unconditionally reaches clean (read is a
total function and returns normally even when parsing failed), and whatever
clean then does — including raising on a missing dump file — the input and
output transient files are no longer present in the resulting filesystem. -/
theorem run_removes_transient_files (c : GULP) (b : Bool) (out : List String) (fs : FS)
    (hw : (GULP.write c fs).isOk = true) :
    c.input ∉ runFS (GULP.run c b out fs) ∧ c.output ∉ runFS (GULP.run c b out fs) := by
  rcases hw1 : GULP.write c fs with e | ⟨ls, fs1⟩
  · rw [hw1] at hw
    exact Bool.noConfusion hw
  · have hfs1 : fs1 = insert c.input fs := write_ok_fs hw1
    subst hfs1
    obtain ⟨hri, hro, -⟩ := read_files out c
    have hmemI : (GULP.read out c).input ∈ GULP.execute c b (insert c.input fs) := by
      rw [hri]
      cases b <;> simp [GULP.execute]
    have hmemO : c.output ∈ GULP.execute c b (insert c.input fs) := by
      cases b <;> simp [GULP.execute]
    obtain ⟨hex1, hex2⟩ :=
      clean_excludes (GULP.read out c) (GULP.execute c b (insert c.input fs)) hmemI
    unfold GULP.run
    rw [hw1]
    dsimp only
    rw [runFS_clean]
    rw [hri] at hex1
    rw [hro] at hex2
    exact ⟨hex1, hex2 hmemO⟩

/-- Witness for C8: a concrete run over the empty filesystem. -/
theorem run_removes_transient_files_witness :
    (GULP.write baseCalc ∅).isOk = true
      ∧ baseCalc.input ∉ runFS (GULP.run baseCalc false [] ∅)
      ∧ baseCalc.output ∉ runFS (GULP.run baseCalc false [] ∅) :=
  ⟨by decide, (run_removes_transient_files baseCalc false [] ∅ (by decide)).1,
    (run_removes_transient_files baseCalc false [] ∅ (by decide)).2⟩

/-! The cell-line format: digits, decimal rendering and rounding. -/

lemma digitChar_spec (d : ℕ) (h : d < 10) :
    isDigit (digitChar d) = true ∧ isWS (digitChar d) = false
      ∧ Char.toLower (digitChar d) = digitChar d
      ∧ digitVal (digitChar d) = d
      ∧ digitChar d ≠ '+' ∧ digitChar d ≠ '-'
      ∧ digitChar d ≠ 'n' ∧ digitChar d ≠ 'i' := by
  interval_cases d <;> exact ⟨by decide, by decide, by decide, by decide, by decide, by decide,
    by decide, by decide⟩

lemma natDecRev_mem (fuel : ℕ) :
    ∀ (n : ℕ) (c : Char), c ∈ natDecRev fuel n → ∃ d, d < 10 ∧ c = digitChar d := by
  induction fuel with
  | zero =>
    intro n c hc
    cases n <;> simp [natDecRev] at hc
  | succ fuel ih =>
    intro n c hc
    cases n with
    | zero => simp [natDecRev] at hc
    | succ m =>
      rw [natDecRev] at hc
      rcases List.mem_cons.mp hc with h | h
      · exact ⟨(m + 1) % 10, Nat.mod_lt _ (by omega), h⟩
      · exact ih ((m + 1) / 10) c h

lemma natDec_mem (n : ℕ) : ∀ c ∈ natDec n, ∃ d, d < 10 ∧ c = digitChar d := by
  intro c hc
  unfold natDec at hc
  split at hc
  · exact ⟨0, by omega, by simpa using hc⟩
  · exact natDecRev_mem n n c (List.mem_reverse.mp hc)

lemma digitsToNat_from (a : ℕ) (cs : List Char) :
    cs.foldl (fun n c => 10 * n + digitVal c) a = a * 10 ^ cs.length + digitsToNat cs := by
  induction cs generalizing a with
  | nil => simp [digitsToNat]
  | cons c cs ih =>
    show cs.foldl _ (10 * a + digitVal c) = a * 10 ^ (c :: cs).length + digitsToNat (c :: cs)
    rw [ih (10 * a + digitVal c)]
    have h0 : digitsToNat (c :: cs) = digitVal c * 10 ^ cs.length + digitsToNat cs := by
      show cs.foldl _ (10 * 0 + digitVal c) = _
      rw [ih (10 * 0 + digitVal c)]
      ring
    rw [h0, List.length_cons]
    ring

lemma digitsToNat_append (xs ys : List Char) :
    digitsToNat (xs ++ ys) = digitsToNat xs * 10 ^ ys.length + digitsToNat ys := by
  unfold digitsToNat
  rw [List.foldl_append]
  exact digitsToNat_from _ ys

lemma digitsToNat_replicate_zero (k : ℕ) (xs : List Char) :
    digitsToNat (List.replicate k '0' ++ xs) = digitsToNat xs := by
  rw [digitsToNat_append]
  have hz : digitsToNat (List.replicate k '0') = 0 := by
    induction k with
    | zero => rfl
    | succ k ih =>
      rw [List.replicate_succ]
      show List.foldl _ (10 * 0 + digitVal '0') _ = 0
      have : (10 * 0 + digitVal '0') = 0 := by decide
      rw [this]
      exact ih
  rw [hz, Nat.zero_mul, Nat.zero_add]

lemma natDecRev_val (fuel : ℕ) :
    ∀ n : ℕ, n ≤ fuel → digitsToNat (natDecRev fuel n).reverse = n := by
  induction fuel with
  | zero =>
    intro n hn
    interval_cases n
    rfl
  | succ fuel ih =>
    intro n hn
    cases n with
    | zero => rfl
    | succ m =>
      rw [natDecRev, List.reverse_cons, digitsToNat_append]
      have hdiv : (m + 1) / 10 ≤ fuel := by
        have := Nat.div_lt_self (Nat.succ_pos m) (show 1 < 10 by omega)
        omega
      rw [ih ((m + 1) / 10) hdiv]
      have hmod : digitsToNat [digitChar ((m + 1) % 10)] = (m + 1) % 10 := by
        show 10 * 0 + digitVal (digitChar ((m + 1) % 10)) = (m + 1) % 10
        rw [(digitChar_spec ((m + 1) % 10) (Nat.mod_lt _ (by omega))).2.2.2.1]
        omega
      rw [hmod]
      simp only [List.length_singleton, pow_one]
      omega

lemma natDec_val (n : ℕ) : digitsToNat (natDec n) = n := by
  unfold natDec
  split
  · subst_eqs
    rfl
  · exact natDecRev_val n n le_rfl

lemma natDecRev_len (fuel : ℕ) :
    ∀ n k : ℕ, n ≤ fuel → n < 10 ^ k → (natDecRev fuel n).length ≤ k := by
  induction fuel with
  | zero =>
    intro n k hn _
    interval_cases n
    simp [natDecRev]
  | succ fuel ih =>
    intro n k hn hk
    cases n with
    | zero => simp [natDecRev]
    | succ m =>
      cases k with
      | zero => simp at hk
      | succ k =>
        rw [natDecRev, List.length_cons]
        have hdiv : (m + 1) / 10 ≤ fuel := by
          have := Nat.div_lt_self (Nat.succ_pos m) (show 1 < 10 by omega)
          omega
        have hlt : (m + 1) / 10 < 10 ^ k := by
          rw [Nat.div_lt_iff_lt_mul (by omega)]
          calc m + 1 < 10 ^ (k + 1) := hk
          _ = 10 ^ k * 10 := by ring
        have := ih ((m + 1) / 10) k hdiv hlt
        omega

lemma natDec_len (n k : ℕ) (h1 : 1 ≤ k) (h2 : n < 10 ^ k) : (natDec n).length ≤ k := by
  unfold natDec
  split
  · simpa using h1
  · rw [List.length_reverse]
    exact natDecRev_len n n k le_rfl h2

lemma natDec_ne_nil (n : ℕ) : natDec n ≠ [] := by
  unfold natDec
  split
  · simp
  · next h =>
    cases n with
    | zero => exact absurd rfl h
    | succ m =>
      rw [natDecRev]
      simp

lemma rheNat_le (n d B : ℕ) (hd : 1 ≤ d) (h : n ≤ B * d) : rheNat n d ≤ B := by
  have hf : n / d ≤ B := by
    have h1 : n / d ≤ B * d / d := Nat.div_le_div_right h
    rwa [Nat.mul_div_cancel _ (by omega)] at h1
  have hdm := Nat.div_add_mod n d
  have hmlt : n % d < d := Nat.mod_lt n (by omega)
  unfold rheNat
  generalize hq : n / d = q at *
  generalize hr : n % d = r at *
  have hsucc : 1 ≤ r → q + 1 ≤ B := by
    intro h1
    rcases Nat.lt_or_ge q B with hlt | hge
    · omega
    · exfalso
      have hqB : q = B := le_antisymm hf hge
      subst hqB
      nlinarith [hdm]
  split_ifs <;> omega

lemma rheNat_scaled (n d : ℕ) (hd : 1 ≤ d) :
    2 * rheNat n d * d ≤ 2 * n + d ∧ 2 * n ≤ 2 * rheNat n d * d + d := by
  have hdm := Nat.div_add_mod n d
  have hmlt : n % d < d := Nat.mod_lt n (by omega)
  unfold rheNat
  generalize hq : n / d = q at *
  generalize hr : n % d = r at *
  split_ifs <;> constructor <;> nlinarith [hdm, hmlt]

lemma toList_mk (cs : List Char) : (String.mk cs).toList = cs := rfl

lemma takeWhile_append_of_all {p : Char → Bool} {xs : List Char}
    (hxs : ∀ c ∈ xs, p c = true) {y : Char} (hy : p y = false) (ys : List Char) :
    (xs ++ y :: ys).takeWhile p = xs ∧ (xs ++ y :: ys).dropWhile p = y :: ys := by
  induction xs with
  | nil => simp [List.takeWhile_cons, List.dropWhile_cons, hy]
  | cons c xs ih =>
    have hc : p c = true := hxs c (List.mem_cons_self c xs)
    have ih2 := ih (fun x hx => hxs x (List.mem_cons_of_mem c hx))
    simp [List.takeWhile_cons, List.dropWhile_cons, hc, ih2.1, ih2.2]

lemma takeWhile_all_of {p : Char → Bool} {xs : List Char} (hxs : ∀ c ∈ xs, p c = true) :
    xs.takeWhile p = xs ∧ xs.dropWhile p = [] := by
  induction xs with
  | nil => simp
  | cons c xs ih =>
    have hc : p c = true := hxs c (List.mem_cons_self c xs)
    have ih2 := ih (fun x hx => hxs x (List.mem_cons_of_mem c hx))
    simp [List.takeWhile_cons, List.dropWhile_cons, hc, ih2.1, ih2.2]

lemma dropWhile_all_false {p : Char → Bool} {xs : List Char} (h : ∀ c ∈ xs, p c = false) :
    xs.dropWhile p = xs := by
  cases xs with
  | nil => rfl
  | cons c t => simp [List.dropWhile_cons, h c (List.mem_cons_self c t)]

lemma pyStrip_id {cs : List Char} (h : ∀ c ∈ cs, isWS c = false) : pyStrip cs = cs := by
  unfold pyStrip
  rw [dropWhile_all_false h,
    dropWhile_all_false (fun c hc => h c (List.mem_reverse.mp hc)), List.reverse_reverse]

lemma signSplit_of_head {c : Char} (t : List Char) (h1 : c ≠ '+') (h2 : c ≠ '-') :
    signSplit (c :: t) = (false, c :: t) := by
  unfold signSplit
  split
  · next heq => rw [List.cons.injEq] at heq; exact absurd heq.1 h1
  · next heq => rw [List.cons.injEq] at heq; exact absurd heq.1 h2
  · rfl

lemma fracSplit_dot (t : List Char) :
    fracSplit ('.' :: t) = (t.takeWhile isDigit, t.dropWhile isDigit) := rfl

lemma padZeros_mem (p : ℕ) (xs : List Char) (h : ∀ c ∈ xs, ∃ d, d < 10 ∧ c = digitChar d) :
    ∀ c ∈ padZeros p xs, ∃ d, d < 10 ∧ c = digitChar d := by
  intro c hc
  unfold padZeros at hc
  rcases List.mem_append.mp hc with h1 | h1
  · exact ⟨0, by omega, List.eq_of_mem_replicate h1⟩
  · exact h c h1

lemma padZeros_length {p : ℕ} {xs : List Char} (h : xs.length ≤ p) :
    (padZeros p xs).length = p := by
  unfold padZeros
  rw [List.length_append, List.length_replicate]
  omega

lemma digits_isDigit {cs : List Char} (h : ∀ c ∈ cs, ∃ d, d < 10 ∧ c = digitChar d) :
    ∀ c ∈ cs, isDigit c = true := by
  intro c hc
  obtain ⟨d, hd, rfl⟩ := h c hc
  exact (digitChar_spec d hd).1

lemma digits_not_ws {cs : List Char} (h : ∀ c ∈ cs, ∃ d, d < 10 ∧ c = digitChar d) :
    ∀ c ∈ cs, isWS c = false := by
  intro c hc
  obtain ⟨d, hd, rfl⟩ := h c hc
  exact (digitChar_spec d hd).2.1

/-- Parsing a rendered nonnegative fixed-point decimal recovers its value. -/
lemma pyFloat?_decimal (ip fp p : ℕ) (hfp : fp < 10 ^ p) (hp : 1 ≤ p) :
    pyFloat? (String.mk (natDec ip ++ '.' :: padZeros p (natDec fp)))
      = some (PVal.num (mkRat ((ip * 10 ^ p + fp : ℕ) : ℤ) (10 ^ p))) := by
  have hAmem := natDec_mem ip
  have hBmem := padZeros_mem p (natDec fp) (natDec_mem fp)
  have hBlen : (padZeros p (natDec fp)).length = p :=
    padZeros_length (natDec_len fp p hp hfp)
  obtain ⟨cA, tA, hA⟩ : ∃ c t, natDec ip = c :: t := by
    cases hA : natDec ip with
    | nil => exact absurd hA (natDec_ne_nil ip)
    | cons c t => exact ⟨c, t, rfl⟩
  obtain ⟨dA, hdA, hcA⟩ := hAmem cA (by rw [hA]; exact List.mem_cons_self cA tA)
  have hcsmem : ∀ c ∈ natDec ip ++ '.' :: padZeros p (natDec fp), isWS c = false := by
    intro c hc
    rcases List.mem_append.mp hc with h1 | h1
    · exact digits_not_ws hAmem c h1
    · rcases List.mem_cons.mp h1 with h2 | h2
      · rw [h2]; decide
      · exact digits_not_ws hBmem c h2
  have hsign : signSplit (natDec ip ++ '.' :: padZeros p (natDec fp))
      = (false, natDec ip ++ '.' :: padZeros p (natDec fp)) := by
    rw [hA, List.cons_append]
    refine signSplit_of_head _ ?_ ?_ <;> rw [hcA]
    · exact (digitChar_spec dA hdA).2.2.2.2.1
    · exact (digitChar_spec dA hdA).2.2.2.2.2.1
  have hmap : (natDec ip ++ '.' :: padZeros p (natDec fp)).map Char.toLower
      = cA :: (tA ++ '.' :: padZeros p (natDec fp)).map Char.toLower := by
    rw [hA, List.cons_append, List.map_cons, hcA, (digitChar_spec dA hdA).2.2.1]
  have hnan : ¬((natDec ip ++ '.' :: padZeros p (natDec fp)).map Char.toLower
      = ['n', 'a', 'n']) := by
    rw [hmap]
    intro heq
    rw [List.cons.injEq, hcA] at heq
    exact absurd heq.1 (digitChar_spec dA hdA).2.2.2.2.2.2.1
  have hinf : ¬((natDec ip ++ '.' :: padZeros p (natDec fp)).map Char.toLower
      = ['i', 'n', 'f']) := by
    rw [hmap]
    intro heq
    rw [List.cons.injEq, hcA] at heq
    exact absurd heq.1 (digitChar_spec dA hdA).2.2.2.2.2.2.2
  have hinfy : ¬((natDec ip ++ '.' :: padZeros p (natDec fp)).map Char.toLower
      = ['i', 'n', 'f', 'i', 'n', 'i', 't', 'y']) := by
    rw [hmap]
    intro heq
    rw [List.cons.injEq, hcA] at heq
    exact absurd heq.1 (digitChar_spec dA hdA).2.2.2.2.2.2.2
  have htakeA := takeWhile_append_of_all (digits_isDigit hAmem)
    (show isDigit '.' = false by decide) (padZeros p (natDec fp))
  have htakeB := takeWhile_all_of (digits_isDigit hBmem)
  have hval : digitsToNat (natDec ip ++ padZeros p (natDec fp)) = ip * 10 ^ p + fp := by
    rw [digitsToNat_append, natDec_val, hBlen]
    have : digitsToNat (padZeros p (natDec fp)) = fp := by
      unfold padZeros
      rw [digitsToNat_replicate_zero, natDec_val]
    rw [this]
  have hlenA : (natDec ip).length ≠ 0 := by
    rw [hA]
    simp
  simp only [pyFloat?, toList_mk]
  rw [pyStrip_id hcsmem, hsign]
  try dsimp only
  rw [if_neg hnan, if_neg hinf, if_neg hinfy, htakeA.1, htakeA.2, fracSplit_dot]
  try dsimp only
  rw [htakeB.1, htakeB.2]
  rw [if_neg (by omega : ¬((natDec ip).length + (padZeros p (natDec fp)).length = 0))]
  rw [if_neg Bool.false_ne_true]
  try dsimp only
  rw [hval, hBlen]

lemma splitWSGo_cons_nws (cur : List Char) (c : Char) (t : List Char) (hc : isWS c = false) :
    splitWSGo cur (c :: t) = splitWSGo (c :: cur) t := by
  simp [splitWSGo, hc]

lemma splitWSGo_cons_ws_empty (c : Char) (t : List Char) (hc : isWS c = true) :
    splitWSGo [] (c :: t) = splitWSGo [] t := by
  simp [splitWSGo, hc]

lemma splitWSGo_cons_ws (cur : List Char) (c : Char) (t : List Char) (hc : isWS c = true)
    (hcur : cur ≠ []) : splitWSGo cur (c :: t) = cur.reverse :: splitWSGo [] t := by
  simp [splitWSGo, hc, hcur]

lemma splitWSGo_nil_end (cur : List Char) (hcur : cur ≠ []) :
    splitWSGo cur [] = [cur.reverse] := by
  simp [splitWSGo, hcur]

lemma splitWSGo_spaces (k : ℕ) (cs : List Char) :
    splitWSGo [] (List.replicate k ' ' ++ cs) = splitWSGo [] cs := by
  induction k with
  | zero => rfl
  | succ k ih =>
    rw [List.replicate_succ, List.cons_append,
      splitWSGo_cons_ws_empty ' ' _ (by decide)]
    exact ih

lemma splitWSGo_token :
    ∀ t : List Char, t ≠ [] → (∀ c ∈ t, isWS c = false) →
      ∀ rest : List Char, (rest = [] ∨ ∃ c rs, rest = c :: rs ∧ isWS c = true) →
      ∀ cur : List Char,
        splitWSGo cur (t ++ rest) = (cur.reverse ++ t) :: splitWSGo [] rest := by
  intro t
  induction t with
  | nil => intro h; exact absurd rfl h
  | cons c t' ih =>
    intro _ hnws rest hrest cur
    have hc : isWS c = false := hnws c (List.mem_cons_self c t')
    rw [List.cons_append, splitWSGo_cons_nws cur c _ hc]
    cases t' with
    | nil =>
      rw [List.nil_append]
      rcases hrest with rfl | ⟨r, rs, rfl, hr⟩
      · rw [splitWSGo_nil_end (c :: cur) (by simp)]
        simp [splitWSGo]
      · rw [splitWSGo_cons_ws (c :: cur) r rs hr (by simp),
          splitWSGo_cons_ws_empty r rs hr]
        simp
    | cons c2 t2 =>
      rw [ih (by simp) (fun x hx => hnws x (List.mem_cons_of_mem c hx)) rest hrest (c :: cur)]
      simp

lemma splitWSAux_fields :
    ∀ fields : List (ℕ × List Char),
      (∀ f ∈ fields, 1 ≤ f.1 ∧ f.2 ≠ [] ∧ ∀ c ∈ f.2, isWS c = false) →
      splitWSAux (fields.foldr (fun f acc => List.replicate f.1 ' ' ++ (f.2 ++ acc)) [])
        = fields.map (fun f => f.2) := by
  intro fields
  induction fields with
  | nil => intro _; rfl
  | cons f fs ih =>
    intro hf
    obtain ⟨-, hne, hnws⟩ := hf f (List.mem_cons_self f fs)
    have hrest : (fs.foldr (fun f acc => List.replicate f.1 ' ' ++ (f.2 ++ acc)) []) = []
        ∨ ∃ c rs, (fs.foldr (fun f acc => List.replicate f.1 ' ' ++ (f.2 ++ acc)) []) = c :: rs
            ∧ isWS c = true := by
      cases fs with
      | nil => exact Or.inl rfl
      | cons g gs =>
        obtain ⟨hg, -, -⟩ := hf g (List.mem_cons_of_mem f (List.mem_cons_self g gs))
        obtain ⟨k, hk⟩ : ∃ k, g.1 = k + 1 := ⟨g.1 - 1, by omega⟩
        refine Or.inr ⟨' ',
          List.replicate k ' ' ++ (g.2 ++ gs.foldr
            (fun f acc => List.replicate f.1 ' ' ++ (f.2 ++ acc)) []), ?_, by decide⟩
        show List.replicate g.1 ' ' ++ _ = _
        rw [hk, List.replicate_succ, List.cons_append]
    show splitWSAux (List.replicate f.1 ' ' ++ (f.2 ++ _)) = f.2 :: _
    unfold splitWSAux
    rw [splitWSGo_spaces, splitWSGo_token f.2 hne hnws _ hrest []]
    rw [List.reverse_nil, List.nil_append]
    have ih2 := ih (fun x hx => hf x (List.mem_cons_of_mem f hx))
    unfold splitWSAux at ih2
    rw [ih2]

/-- The printed digits of a 6-decimal fixed-point field, without the space
padding: integer part, decimal point, zero-padded fraction. -/
def tokChars (p : ℕ) (x : ℚ) : List Char :=
  natDec (scaledMag p x / 10 ^ p) ++ '.' :: padZeros p (natDec (scaledMag p x % 10 ^ p))

/-- A cell-line numeric field as a string, without the space padding. -/
def fmt6Tok (x : ℚ) : String := String.mk (tokChars 6 x)

lemma fmtFixed_nonneg (w p : ℕ) (x : ℚ) (h : 0 ≤ x) :
    fmtFixed w p x
      = String.mk (List.replicate (w - (tokChars p x).length) ' ' ++ tokChars p x) := by
  unfold fmtFixed tokChars
  rw [if_neg (not_lt.mpr (Rat.num_nonneg.mpr h))]
  simp only [List.nil_append]

lemma scaledMag_le (x : ℚ) (h0 : 0 ≤ x) (h1 : x ≤ 9999) :
    scaledMag 6 x ≤ 9999 * 10 ^ 6 := by
  unfold scaledMag
  apply rheNat_le _ _ _ x.den_pos
  have hnum : x.num ≤ 9999 * x.den := by
    have h2 := Rat.le_def.mp h1
    rw [Rat.num_ofNat, Rat.den_ofNat] at h2
    omega
  zify
  rw [abs_of_nonneg (Rat.num_nonneg.mpr h0)]
  nlinarith [hnum, x.den_pos]

lemma tokChars_len_le (x : ℚ) (h0 : 0 ≤ x) (h1 : x ≤ 9999) : (tokChars 6 x).length ≤ 11 := by
  unfold tokChars
  rw [List.length_append, List.length_cons,
    padZeros_length (natDec_len _ 6 (by omega) (Nat.mod_lt _ (by positivity)))]
  have hip : scaledMag 6 x / 10 ^ 6 < 10 ^ 4 := by
    have hle := scaledMag_le x h0 h1
    have h2 : scaledMag 6 x / 10 ^ 6 ≤ 9999 * 10 ^ 6 / 10 ^ 6 := Nat.div_le_div_right hle
    rw [Nat.mul_div_cancel _ (by positivity)] at h2
    omega
  have := natDec_len (scaledMag 6 x / 10 ^ 6) 4 (by omega) hip
  omega

lemma tokChars_ne_nil (p : ℕ) (x : ℚ) : tokChars p x ≠ [] := by
  unfold tokChars
  intro h
  rw [List.append_eq_nil] at h
  exact natDec_ne_nil _ h.1

lemma tokChars_not_ws (p : ℕ) (x : ℚ) : ∀ c ∈ tokChars p x, isWS c = false := by
  intro c hc
  unfold tokChars at hc
  rcases List.mem_append.mp hc with h1 | h1
  · exact digits_not_ws (natDec_mem _) c h1
  · rcases List.mem_cons.mp h1 with h2 | h2
    · rw [h2]; decide
    · exact digits_not_ws (padZeros_mem _ _ (natDec_mem _)) c h2

lemma fmtFixed_length (x : ℚ) (h0 : 0 ≤ x) (h1 : x ≤ 9999) :
    (fmtFixed 12 6 x).length = 12 := by
  rw [fmtFixed_nonneg 12 6 x h0]
  show (List.replicate (12 - (tokChars 6 x).length) ' ' ++ tokChars 6 x).length = 12
  rw [List.length_append, List.length_replicate]
  have := tokChars_len_le x h0 h1
  omega

lemma fmt6Tok_parse (x : ℚ) :
    pyFloat? (fmt6Tok x) = some (PVal.num (mkRat ((scaledMag 6 x : ℕ) : ℤ) (10 ^ 6))) := by
  have h := pyFloat?_decimal (scaledMag 6 x / 10 ^ 6) (scaledMag 6 x % 10 ^ 6) 6
    (Nat.mod_lt _ (by positivity)) (by omega)
  have hdm : scaledMag 6 x / 10 ^ 6 * 10 ^ 6 + scaledMag 6 x % 10 ^ 6 = scaledMag 6 x := by
    have := Nat.div_add_mod (scaledMag 6 x) (10 ^ 6)
    omega
  rw [hdm] at h
  exact h

lemma rheNat_q_bound (n d : ℕ) (hd : 1 ≤ d) :
    |((rheNat n d : ℕ) : ℚ) * d - n| ≤ (d : ℚ) / 2 := by
  obtain ⟨h1, h2⟩ := rheNat_scaled n d hd
  have c1 : (2 * rheNat n d * d : ℚ) ≤ 2 * n + d := by exact_mod_cast h1
  have c2 : (2 * n : ℚ) ≤ 2 * rheNat n d * d + d := by exact_mod_cast h2
  rw [abs_le]
  constructor <;> [linarith; linarith]

lemma scaledMag_approx (x : ℚ) (h0 : 0 ≤ x) :
    |(mkRat ((scaledMag 6 x : ℕ) : ℤ) (10 ^ 6) : ℚ) - x| ≤ 1 / 2000000 := by
  have hd : (0 : ℚ) < (x.den : ℚ) := by exact_mod_cast x.den_pos
  have hmk : (mkRat ((scaledMag 6 x : ℕ) : ℤ) (10 ^ 6) : ℚ)
      = ((scaledMag 6 x : ℕ) : ℚ) / ((10 : ℚ) ^ 6) := by
    rw [Rat.mkRat_eq_div]
    push_cast
    ring
  have habs : (x.num.natAbs : ℤ) = x.num := Int.natAbs_of_nonneg (Rat.num_nonneg.mpr h0)
  have hcast : ((x.num.natAbs : ℕ) : ℚ) = (x.num : ℚ) := by
    rw [Int.cast_natAbs]
    exact congrArg (fun z : ℤ => (z : ℚ)) (abs_of_nonneg (Rat.num_nonneg.mpr h0))
  have hx : x = ((x.num.natAbs : ℕ) : ℚ) / (x.den : ℚ) := by
    rw [hcast, Rat.num_div_den]
  have hm_eq : scaledMag 6 x = rheNat (x.num.natAbs * 10 ^ 6) x.den := rfl
  have hnum : |((scaledMag 6 x : ℕ) : ℚ) * x.den - 10 ^ 6 * (x.num.natAbs : ℚ)|
      ≤ (x.den : ℚ) / 2 := by
    rw [hm_eq]
    have h2 := rheNat_q_bound (x.num.natAbs * 10 ^ 6) x.den x.den_pos
    have h3 : ((x.num.natAbs * 10 ^ 6 : ℕ) : ℚ) = 10 ^ 6 * (x.num.natAbs : ℚ) := by
      push_cast
      ring
    rw [h3] at h2
    exact h2
  rw [hmk]
  nth_rewrite 2 [hx]
  rw [div_sub_div _ _ (by positivity : ((10 : ℚ) ^ 6) ≠ 0) (ne_of_gt hd), abs_div,
    abs_of_pos (by positivity : (0 : ℚ) < 10 ^ 6 * x.den),
    div_le_iff₀ (by positivity : (0 : ℚ) < 10 ^ 6 * x.den)]
  calc |((scaledMag 6 x : ℕ) : ℚ) * x.den - 10 ^ 6 * (x.num.natAbs : ℚ)|
      ≤ (x.den : ℚ) / 2 := hnum
  _ = 1 / 2000000 * (10 ^ 6 * x.den) := by ring

lemma toList_append (s t : String) : (s ++ t).toList = s.toList ++ t.toList := rfl

lemma pySplit_cellLine (a b c alpha beta gamma : ℚ)
    (hb : ∀ x ∈ [a, b, c, alpha, beta, gamma], 0 ≤ x ∧ x ≤ 9999) :
    pySplit (cellLine a b c alpha beta gamma)
      = [fmt6Tok a, fmt6Tok b, fmt6Tok c, fmt6Tok alpha, fmt6Tok beta, fmt6Tok gamma] := by
  have ha := hb a (by simp)
  have hbb := hb b (by simp)
  have hc := hb c (by simp)
  have hal := hb alpha (by simp)
  have hbe := hb beta (by simp)
  have hga := hb gamma (by simp)
  have hlist : (cellLine a b c alpha beta gamma).toList
      = ([(12 - (tokChars 6 a).length, tokChars 6 a),
          (12 - (tokChars 6 b).length, tokChars 6 b),
          (12 - (tokChars 6 c).length, tokChars 6 c),
          (12 - (tokChars 6 alpha).length, tokChars 6 alpha),
          (12 - (tokChars 6 beta).length, tokChars 6 beta),
          (12 - (tokChars 6 gamma).length, tokChars 6 gamma)] : List (ℕ × List Char)).foldr
            (fun f acc => List.replicate f.1 ' ' ++ (f.2 ++ acc)) [] := by
    unfold cellLine
    rw [fmtFixed_nonneg 12 6 a ha.1, fmtFixed_nonneg 12 6 b hbb.1, fmtFixed_nonneg 12 6 c hc.1,
      fmtFixed_nonneg 12 6 alpha hal.1, fmtFixed_nonneg 12 6 beta hbe.1,
      fmtFixed_nonneg 12 6 gamma hga.1]
    simp [toList_append, toList_mk, List.append_assoc]
  have hside : ∀ f ∈ ([(12 - (tokChars 6 a).length, tokChars 6 a),
          (12 - (tokChars 6 b).length, tokChars 6 b),
          (12 - (tokChars 6 c).length, tokChars 6 c),
          (12 - (tokChars 6 alpha).length, tokChars 6 alpha),
          (12 - (tokChars 6 beta).length, tokChars 6 beta),
          (12 - (tokChars 6 gamma).length, tokChars 6 gamma)] : List (ℕ × List Char)),
      1 ≤ f.1 ∧ f.2 ≠ [] ∧ ∀ ch ∈ f.2, isWS ch = false := by
    intro f hf
    have hlen : ∀ x : ℚ, 0 ≤ x → x ≤ 9999 →
        1 ≤ 12 - (tokChars 6 x).length := by
      intro x h0 h1
      have := tokChars_len_le x h0 h1
      omega
    simp only [List.mem_cons, List.not_mem_nil, or_false] at hf
    rcases hf with rfl | rfl | rfl | rfl | rfl | rfl
    · exact ⟨hlen a ha.1 ha.2, tokChars_ne_nil _ _, tokChars_not_ws _ _⟩
    · exact ⟨hlen b hbb.1 hbb.2, tokChars_ne_nil _ _, tokChars_not_ws _ _⟩
    · exact ⟨hlen c hc.1 hc.2, tokChars_ne_nil _ _, tokChars_not_ws _ _⟩
    · exact ⟨hlen alpha hal.1 hal.2, tokChars_ne_nil _ _, tokChars_not_ws _ _⟩
    · exact ⟨hlen beta hbe.1 hbe.2, tokChars_ne_nil _ _, tokChars_not_ws _ _⟩
    · exact ⟨hlen gamma hga.1 hga.2, tokChars_ne_nil _ _, tokChars_not_ws _ _⟩
  unfold pySplit
  rw [hlist, splitWSAux_fields _ hside]
  rfl

/-- C7: for a calculator whose structure-derived attributes are present, the
writer succeeds, and line index 3 of the produced deck (right after the cell
directive) is the cell line: the six lattice parameters a, b, c, alpha,
beta, gamma in that order, each rendered by the 12-wide 6-decimal
fixed-point format.  For parameters in the range where that format is
12 characters wide (nonnegative and at most 9999), the line splits into
exactly six numeric fields, each field is 12 characters wide, and each
parses back to a float equal to the parameter to the documented 6-decimal
precision (within half of 10 to the minus 6). -/
theorem write_cell_line_format (cal : GULP) (a b c alpha beta gamma : ℚ)
    (coords : List (List PVal)) (sites : List String) (als : List String) (fs : FS)
    (hL : cal.lattice = some (Lattice.ofParams a b c alpha beta gamma))
    (hfc : cal.frac_coords = some coords) (hsi : cal.sites = some sites)
    (hal : atomLines coords sites = some als)
    (hb : ∀ x ∈ [a, b, c, alpha, beta, gamma], 0 ≤ x ∧ x ≤ 9999) :
    (∃ ls, GULP.write cal fs = Except.ok (ls, insert cal.input fs)
        ∧ ls[3]? = some (cellLine a b c alpha beta gamma))
      ∧ cellLine a b c alpha beta gamma
          = fmtFixed 12 6 a ++ fmtFixed 12 6 b ++ fmtFixed 12 6 c ++ fmtFixed 12 6 alpha
              ++ fmtFixed 12 6 beta ++ fmtFixed 12 6 gamma
      ∧ pySplit (cellLine a b c alpha beta gamma)
          = [fmt6Tok a, fmt6Tok b, fmt6Tok c, fmt6Tok alpha, fmt6Tok beta, fmt6Tok gamma]
      ∧ ∀ x ∈ [a, b, c, alpha, beta, gamma],
          (fmtFixed 12 6 x).length = 12
            ∧ pyFloat? (fmt6Tok x) = some (PVal.num (mkRat ((scaledMag 6 x : ℕ) : ℤ) (10 ^ 6)))
            ∧ |(mkRat ((scaledMag 6 x : ℕ) : ℤ) (10 ^ 6) : ℚ) - x| ≤ 1 / 2000000 := by
  refine ⟨?_, rfl, pySplit_cellLine a b c alpha beta gamma hb, ?_⟩
  · unfold GULP.write
    rw [hL]
    dsimp only
    rw [hfc, hsi]
    dsimp only
    unfold writeLines
    rw [hal]
    dsimp only [Option.map_some', Lattice.get_para]
    exact ⟨_, rfl, rfl⟩
  · intro x hx
    obtain ⟨h0, h1⟩ := hb x hx
    exact ⟨fmtFixed_length x h0 h1, fmt6Tok_parse x, scaledMag_approx x h0⟩

/-- Witness for C7: the base calculator and the empty filesystem. -/
theorem write_cell_line_format_witness :
    (baseCalc.lattice = some (Lattice.ofParams 1 2 3 90 90 100)
        ∧ baseCalc.frac_coords = some [[PVal.num 0, PVal.num 0, PVal.num 0]]
        ∧ baseCalc.sites = some ["X"]
        ∧ atomLines [[PVal.num 0, PVal.num 0, PVal.num 0]] ["X"]
            = some ["X        0.000000     0.000000     0.000000 core "]
        ∧ (∀ x ∈ [(1 : ℚ), 2, 3, 90, 90, 100], 0 ≤ x ∧ x ≤ 9999))
      ∧ ((∃ ls, GULP.write baseCalc ∅ = Except.ok (ls, insert baseCalc.input ∅)
            ∧ ls[3]? = some (cellLine 1 2 3 90 90 100))
          ∧ cellLine 1 2 3 90 90 100
              = fmtFixed 12 6 1 ++ fmtFixed 12 6 2 ++ fmtFixed 12 6 3 ++ fmtFixed 12 6 90
                  ++ fmtFixed 12 6 90 ++ fmtFixed 12 6 100
          ∧ pySplit (cellLine 1 2 3 90 90 100)
              = [fmt6Tok 1, fmt6Tok 2, fmt6Tok 3, fmt6Tok 90, fmt6Tok 90, fmt6Tok 100]
          ∧ ∀ x ∈ [(1 : ℚ), 2, 3, 90, 90, 100],
              (fmtFixed 12 6 x).length = 12
                ∧ pyFloat? (fmt6Tok x)
                    = some (PVal.num (mkRat ((scaledMag 6 x : ℕ) : ℤ) (10 ^ 6)))
                ∧ |(mkRat ((scaledMag 6 x : ℕ) : ℤ) (10 ^ 6) : ℚ) - x| ≤ 1 / 2000000) :=
  ⟨⟨by decide, by decide, by decide, by decide, by decide⟩,
    write_cell_line_format baseCalc 1 2 3 90 90 100 [[PVal.num 0, PVal.num 0, PVal.num 0]]
      ["X"] ["X        0.000000     0.000000     0.000000 core "] ∅
      (by decide) (by decide) (by decide) (by decide) (by decide)⟩

end PyXtalGulp
